import Mathlib

/-!
# v4l2loopback-test: the mmap + pthread streaming program

A shallow embedding of `lbn11-v4l2loopback-mmap-pthread.c`: the shared buffer
pool, the two scans over it, one pass of the producer and of the consumer
thread through their critical sections, pool initialisation and `main`.

Conventions of the embedding.

* The fixed-size C arrays `buffers`, `buffer_start`, `buffer_used` are lists;
  a pool laid out as in the C struct has `MAX_BUFFERS` entries in each.
* A C function that receives `buffer_pool_t *pool` is a function from the pool
  to a result together with the pool it leaves behind.
* An access outside an array is undefined behaviour in C; the embedding
  reports it as `none`.
* Calls that leave the process (ioctl, poll, mmap, pthread, the decoder) are
  answered by explicit inputs of the step, and every such call is recorded, in
  program order, in a list of `Event`s.
-/

namespace V4l2Loopback

/-- The constant `#define MAX_BUFFERS 32`. -/
def MAX_BUFFERS : Nat := 32

/-- The fields of `struct v4l2_buffer` that the program stores and reads back:
`index`, `length` and `m.offset`. -/
structure v4l2_buffer where
  index : Nat
  length : Nat
  offset : Nat
deriving DecidableEq, Repr

/-- The struct `buffer_pool_t` (lines 17-26). The mutex and the two condition
variables carry no data of their own; their use is recorded as events. A mapped
address is a natural number, `0` being `NULL`. -/
structure buffer_pool_t where
  fd : Int
  buffers : List v4l2_buffer
  buffer_start : List Nat
  buffer_used : List Int
  buffer_count : Int
deriving DecidableEq, Repr

/-- The global `buffer_pool` (line 35): static storage, zero-initialised. -/
def buffer_pool : buffer_pool_t :=
  { fd := 0
    buffers := List.replicate MAX_BUFFERS ⟨0, 0, 0⟩
    buffer_start := List.replicate MAX_BUFFERS 0
    buffer_used := List.replicate MAX_BUFFERS 0
    buffer_count := 0 }

/-- The loop of `find_available_buffer` (lines 39-41), entered at index `i` with
`n` iterations left before `i < pool->buffer_count` turns false. -/
def find_available_loop (pool : buffer_pool_t) : Nat → Nat → Option (Int × buffer_pool_t)
  | 0, _ => some (-1, pool)
  | n + 1, i =>
    match pool.buffer_used[i]? with
    | none => none
    | some used =>
      if used = 0 then some ((i : Int), pool) else find_available_loop pool n (i + 1)

/-- The function `find_available_buffer` (lines 38-43). The loop starts at
`i = 0` and runs while `i < pool->buffer_count`, that is `buffer_count.toNat`
times at most. -/
def find_available_buffer (pool : buffer_pool_t) : Option (Int × buffer_pool_t) :=
  find_available_loop pool pool.buffer_count.toNat 0

/-- The loop of `find_used_buffer` (lines 47-49). -/
def find_used_loop (pool : buffer_pool_t) : Nat → Nat → Option (Int × buffer_pool_t)
  | 0, _ => some (-1, pool)
  | n + 1, i =>
    match pool.buffer_used[i]? with
    | none => none
    | some used =>
      if used ≠ 0 then some ((i : Int), pool) else find_used_loop pool n (i + 1)

/-- The function `find_used_buffer` (lines 46-51). -/
def find_used_buffer (pool : buffer_pool_t) : Option (Int × buffer_pool_t) :=
  find_used_loop pool pool.buffer_count.toNat 0

/-- Calls made by the program that reach outside the thread making them,
recorded in program order. An index is the buffer index passed to or reported by
the call; `ok` is whether the call succeeded. -/
inductive Event where
  /-- The call `pthread_mutex_lock(&pool->lock)`. -/
  | mutex_lock
  /-- The call `pthread_mutex_unlock(&pool->lock)`. -/
  | mutex_unlock
  /-- Entering `pthread_cond_wait(&pool->buffer_free, &pool->lock)`: the lock is
  released and the producer is suspended. -/
  | cond_wait_buffer_free
  /-- Return from the wait on `buffer_free`, the lock held again. -/
  | cond_wake_buffer_free
  /-- Entering `pthread_cond_wait(&pool->buffer_available, &pool->lock)`. -/
  | cond_wait_buffer_available
  /-- Return from the wait on `buffer_available`, the lock held again. -/
  | cond_wake_buffer_available
  /-- The call `pthread_cond_signal(&pool->buffer_available)` (line 177). -/
  | cond_signal_buffer_available
  /-- The call `pthread_cond_signal(&pool->buffer_free)` (line 224). -/
  | cond_signal_buffer_free
  /-- The call `sws_scale` writing the frame into `pool->buffer_start[idx]`. -/
  | sws_scale (idx : Nat)
  /-- The call `ioctl(pool->fd, VIDIOC_QBUF, &buf)` with `buf.index = idx`. -/
  | ioctl_qbuf (idx : Nat) (ok : Bool)
  /-- The call `poll(&pfd, 1, -1)`; `ok` is `poll(...) > 0`. -/
  | poll (ok : Bool)
  /-- The call `ioctl(pool->fd, VIDIOC_DQBUF, &buf)`: `some j` when it returns 0
  with `buf.index = j`, `none` when it fails. -/
  | ioctl_dqbuf (index : Option Nat)
  /-- A call of `perror`. -/
  | perror (msg : String)
  /-- The call `usleep(16666)`. -/
  | usleep
  /-- The call `ioctl(fd, VIDIOC_S_FMT, &fmt)`. -/
  | ioctl_s_fmt (ok : Bool)
  /-- The call `ioctl(fd, VIDIOC_REQBUFS, &req)` with `req.count = requested`;
  `granted` is `req.count` on return, `none` when the call fails. -/
  | ioctl_reqbufs (requested : Nat) (granted : Option Nat)
  /-- The call `ioctl(fd, VIDIOC_QUERYBUF, &buf)` with `buf.index = i`. -/
  | ioctl_querybuf (i : Nat) (ok : Bool)
  /-- The call `mmap` for buffer `i`; `ok` is false when it returns `MAP_FAILED`. -/
  | mmap (i : Nat) (ok : Bool)
  /-- The call `munmap(pool->buffer_start[i], pool->buffers[i].length)`. -/
  | munmap (i : Nat)
  /-- The call `pthread_mutex_init(&pool->lock, NULL)`. -/
  | mutex_init (ok : Bool)
  /-- The call `pthread_cond_init(&pool->buffer_available, NULL)`. -/
  | cond_init_buffer_available (ok : Bool)
  /-- The call `pthread_cond_init(&pool->buffer_free, NULL)`. -/
  | cond_init_buffer_free (ok : Bool)
  /-- The call `exit(EXIT_FAILURE)`. -/
  | exit_failure
  /-- The call `open(device, O_RDWR)`. -/
  | open_device (ok : Bool)
  /-- The call `ioctl(fd, VIDIOC_STREAMON, &type)`. -/
  | ioctl_streamon (ok : Bool)
  /-- The call `ioctl(fd, VIDIOC_STREAMOFF, &type)`. -/
  | ioctl_streamoff (ok : Bool)
  /-- The call `pthread_create(&prod, NULL, producer_thread, &parg)`. -/
  | pthread_create_producer (ok : Bool)
  /-- The call `pthread_create(&cons, NULL, consumer_thread, &buffer_pool)`. -/
  | pthread_create_consumer (ok : Bool)
  /-- The call `pthread_join(prod, NULL)` returning. -/
  | pthread_join_producer
  /-- The call `pthread_cancel(cons)`. -/
  | pthread_cancel_consumer
  /-- The call `close(fd)`. -/
  | close_fd
deriving DecidableEq, Repr

/-- What a step of a thread leaves behind: where the thread is now, the pool,
and the calls it made. -/
structure step_result (σ : Type) where
  next : σ
  pool : buffer_pool_t
  events : List Event
deriving DecidableEq, Repr

/-- Where the producer thread stands between two steps. -/
inductive producer_pc where
  /-- At the loop condition `avcodec_receive_frame(codec_ctx, frame) == 0`
  (line 150), the lock not held. -/
  | receive_frame
  /-- Suspended in `pthread_cond_wait(&pool->buffer_free, ...)` (line 154). -/
  | wait_buffer_free
  /-- Past both frame loops (lines 185-192). -/
  | returned
deriving DecidableEq, Repr

/-- What the outside answers during one producer step: whether the decoder
delivers another frame (the loop conditions of lines 137-150), and whether
`ioctl(VIDIOC_QBUF)` succeeds. -/
structure producer_input where
  frame : Bool
  qbuf_ok : Bool
deriving DecidableEq, Repr

/-- Lines 153-181 of `producer_thread`, run with the lock held: the condition
of the `while` of line 153 is evaluated once. When no buffer is available the
thread enters `pthread_cond_wait` (line 154). Otherwise it leaves the loop with
`idx`, reads `pool->buffer_start[idx]` (line 158), converts the frame into it
(line 161), queues the buffer (line 171), marks it used and signals on success
(lines 174-177), unlocks and sleeps (lines 180-181). -/
def producer_claim (pool : buffer_pool_t) (qbuf_ok : Bool) :
    Option (step_result producer_pc) :=
  match find_available_buffer pool with
  | none => none
  | some (idx, pool) =>
    if idx < 0 then
      some { next := .wait_buffer_free, pool := pool, events := [.cond_wait_buffer_free] }
    else
      match pool.buffer_start[idx.toNat]? with
      | none => none
      | some _ =>
        if qbuf_ok then
          some { next := .receive_frame
                 pool := { pool with buffer_used := pool.buffer_used.set idx.toNat 1 }
                 events := [.sws_scale idx.toNat, .ioctl_qbuf idx.toNat true,
                            .cond_signal_buffer_available, .mutex_unlock, .usleep] }
        else
          some { next := .receive_frame
                 pool := pool
                 events := [.sws_scale idx.toNat, .ioctl_qbuf idx.toNat false,
                            .perror "ioctl VIDIOC_QBUF", .mutex_unlock, .usleep] }

/-- One step of `producer_thread` (lines 137-183) from a point where it does not
hold the lock to the next such point. At the frame loop it either finds the
decoder exhausted and returns, or takes the lock (line 152) and runs
`producer_claim`; woken from the wait it holds the lock again and re-evaluates
the loop condition of line 153. A returned thread does nothing. -/
def producer_step (pc : producer_pc) (pool : buffer_pool_t) (inp : producer_input) :
    Option (step_result producer_pc) :=
  match pc with
  | .receive_frame =>
    if inp.frame then
      (producer_claim pool inp.qbuf_ok).map
        fun r => { r with events := Event.mutex_lock :: r.events }
    else
      some { next := .returned, pool := pool, events := [] }
  | .wait_buffer_free =>
    (producer_claim pool inp.qbuf_ok).map
      fun r => { r with events := Event.cond_wake_buffer_free :: r.events }
  | .returned => some { next := .returned, pool := pool, events := [] }

/-- Where the consumer thread stands between two steps. -/
inductive consumer_pc where
  /-- At the top of `while (1)` (line 203), the lock not held. -/
  | loop_head
  /-- Suspended in `pthread_cond_wait(&pool->buffer_available, ...)` (line 207). -/
  | wait_buffer_available
  /-- After the unlock of line 209, about to call `poll` (line 211). -/
  | poll
deriving DecidableEq, Repr

/-- The consumer thread between two steps: its position and its local `idx`. -/
structure consumer_state where
  pc : consumer_pc
  idx : Int
deriving DecidableEq, Repr

/-- What the outside answers during one consumer step: whether `poll` returns a
positive value, and what `ioctl(VIDIOC_DQBUF)` reports (`some j`: success with
`buf.index = j`; `none`: failure). -/
structure consumer_input where
  poll_ok : Bool
  dqbuf : Option Nat
deriving DecidableEq, Repr

/-- Lines 206-209 of `consumer_thread`, run with the lock held: the condition of
the `while` of line 206 is evaluated once; with no used buffer the thread enters
`pthread_cond_wait` (line 207), otherwise it unlocks (line 209). -/
def consumer_check (pool : buffer_pool_t) : Option (step_result consumer_state) :=
  match find_used_buffer pool with
  | none => none
  | some (idx, pool) =>
    if idx < 0 then
      some { next := { pc := .wait_buffer_available, idx := idx }, pool := pool
             events := [.cond_wait_buffer_available] }
    else
      some { next := { pc := .poll, idx := idx }, pool := pool, events := [.mutex_unlock] }

/-- Lines 211-228 of `consumer_thread`: `poll`, and on a positive result the
lock, `VIDIOC_DQBUF`, the store `pool->buffer_used[buf.index] = 0` with the
signal on success or `perror` on failure, and the unlock. Either way the thread
is back at the top of `while (1)`. -/
def consumer_reclaim (cs : consumer_state) (pool : buffer_pool_t) (inp : consumer_input) :
    Option (step_result consumer_state) :=
  if inp.poll_ok then
    match inp.dqbuf with
    | some j =>
      if j < pool.buffer_used.length then
        some { next := { cs with pc := .loop_head }
               pool := { pool with buffer_used := pool.buffer_used.set j 0 }
               events := [.poll true, .mutex_lock, .ioctl_dqbuf (some j),
                          .cond_signal_buffer_free, .mutex_unlock] }
      else none
    | none =>
      some { next := { cs with pc := .loop_head }
             pool := pool
             events := [.poll true, .mutex_lock, .ioctl_dqbuf none,
                        .perror "ioctl VIDIOC_DQBUF", .mutex_unlock] }
  else
    some { next := { cs with pc := .loop_head }, pool := pool
           events := [.poll false, .perror "poll"] }

/-- One step of `consumer_thread` (lines 203-229) from a point where it does
not hold the lock to the next such point. -/
def consumer_step (cs : consumer_state) (pool : buffer_pool_t) (inp : consumer_input) :
    Option (step_result consumer_state) :=
  match cs.pc with
  | .loop_head =>
    (consumer_check pool).map fun r => { r with events := Event.mutex_lock :: r.events }
  | .wait_buffer_available =>
    (consumer_check pool).map
      fun r => { r with events := Event.cond_wake_buffer_available :: r.events }
  | .poll => consumer_reclaim cs pool inp

/-- The two threads and the pool they share. -/
structure system_state where
  pool : buffer_pool_t
  producer : producer_pc
  consumer : consumer_state
deriving DecidableEq, Repr

/-- Which thread runs next, with the answers it gets from outside. -/
inductive thread_step where
  | producer (inp : producer_input)
  | consumer (inp : consumer_input)
deriving DecidableEq, Repr

/-- One step of the system. Every access to `buffer_used` in either thread lies
between a lock and an unlock (or wait) of `pool->lock`, so the steps of the two
threads, each a whole critical section, happen one after the other. -/
def system_step (s : system_state) (t : thread_step) : Option (system_state × List Event) :=
  match t with
  | .producer inp =>
    (producer_step s.producer s.pool inp).map
      fun r => ({ s with pool := r.pool, producer := r.next }, r.events)
  | .consumer inp =>
    (consumer_step s.consumer s.pool inp).map
      fun r => ({ s with pool := r.pool, consumer := r.next }, r.events)

/-- A schedule of steps run from a state, collecting the events. -/
def run : List thread_step → system_state → Option (system_state × List Event)
  | [], s => some (s, [])
  | t :: ts, s =>
    match system_step s t with
    | none => none
    | some (s1, evs) => (run ts s1).map fun (s2, evs2) => (s2, evs ++ evs2)

/-- A pool laid out as the C struct: each array has `MAX_BUFFERS` entries. -/
def buffer_pool_t.laid_out (pool : buffer_pool_t) : Prop :=
  pool.buffers.length = MAX_BUFFERS ∧ pool.buffer_start.length = MAX_BUFFERS ∧
    pool.buffer_used.length = MAX_BUFFERS

instance (pool : buffer_pool_t) : Decidable pool.laid_out := by
  unfold buffer_pool_t.laid_out; infer_instance

/-- A pool of `n` slots, all free: the state `init_buffers` leaves in
`buffer_used` and `buffer_count` when `n` buffers are granted and mapped. -/
def all_free (n : Nat) : buffer_pool_t := { buffer_pool with buffer_count := n }

/-- Both threads at their entry, over the given pool. -/
def start_state (pool : buffer_pool_t) : system_state :=
  { pool := pool, producer := .receive_frame, consumer := { pc := .loop_head, idx := -1 } }

/-- How a call of a `void` function of the program ends: it returns, it calls
`exit(EXIT_FAILURE)`, or it accesses an array outside its bounds. -/
inductive call_status where
  | returned
  | exit_failure
  | out_of_bounds
deriving DecidableEq, Repr

/-- What a call leaves behind: how it ended, the pool at that point, and the
calls made up to that point. -/
structure call_result where
  status : call_status
  pool : buffer_pool_t
  events : List Event
deriving DecidableEq, Repr

/-- What the device and the libraries answer during `init_buffers`:
`reqbufs` is `req.count` after `VIDIOC_REQBUFS` (`none`: the ioctl fails),
`querybuf i` the buffer description `VIDIOC_QUERYBUF` fills in for index `i`
(`none`: the ioctl fails), `mmap i` the address `mmap` returns for buffer `i`
(`none`: `MAP_FAILED`); the three flags are the results of the pthread
initialisers. -/
structure init_device where
  reqbufs : Option Nat
  querybuf : Nat → Option v4l2_buffer
  mmap : Nat → Option Nat
  mutex_init_ok : Bool
  cond_available_ok : Bool
  cond_free_ok : Bool

/-- The value `MAP_FAILED`, `(void *) -1` on a 64-bit target. -/
def MAP_FAILED : Nat := 2 ^ 64 - 1

/-- The conversion of the `__u32` `req.count` to the `int` `buffer_count`
(line 250), values above `INT_MAX` wrapping. -/
def u32_to_int (c : Nat) : Int :=
  if c % 2 ^ 32 < 2 ^ 31 then (c % 2 ^ 32 : Nat) else ((c % 2 ^ 32 : Nat) : Int) - 2 ^ 32

/-- The loop of `init_buffers` (lines 253-271), entered at index `i` with `n`
iterations left before `i < req.count` turns false. -/
def init_buffers_loop (dev : init_device) : Nat → Nat → buffer_pool_t → call_result
  | 0, _, pool => { status := .returned, pool := pool, events := [] }
  | n + 1, i, pool =>
    match dev.querybuf i with
    | none =>
      { status := .exit_failure, pool := pool
        events := [.ioctl_querybuf i false, .perror "ioctl VIDIOC_QUERYBUF", .exit_failure] }
    | some buf =>
      if i < pool.buffers.length then
        let pool1 := { pool with buffers := pool.buffers.set i buf }
        if i < pool1.buffer_start.length then
          match dev.mmap i with
          | none =>
            { status := .exit_failure
              pool := { pool1 with buffer_start := pool1.buffer_start.set i MAP_FAILED }
              events := [.ioctl_querybuf i true, .mmap i false, .perror "mmap", .exit_failure] }
          | some addr =>
            let pool2 := { pool1 with buffer_start := pool1.buffer_start.set i addr }
            if i < pool2.buffer_used.length then
              let r := init_buffers_loop dev n (i + 1)
                { pool2 with buffer_used := pool2.buffer_used.set i 0 }
              { r with events := [.ioctl_querybuf i true, .mmap i true] ++ r.events }
            else
              { status := .out_of_bounds, pool := pool2
                events := [.ioctl_querybuf i true, .mmap i true] }
        else
          { status := .out_of_bounds, pool := pool1
            events := [.ioctl_querybuf i true, .mmap i (dev.mmap i).isSome] }
      else
        { status := .out_of_bounds, pool := pool, events := [.ioctl_querybuf i true] }

/-- The tail of `init_buffers` (lines 273-284): the mutex and the two condition
variables are initialised, each failure ending in `exit(EXIT_FAILURE)`. -/
def init_sync (dev : init_device) (pool : buffer_pool_t) : call_result :=
  if dev.mutex_init_ok then
    if dev.cond_available_ok then
      if dev.cond_free_ok then
        { status := .returned, pool := pool
          events := [.mutex_init true, .cond_init_buffer_available true,
                     .cond_init_buffer_free true] }
      else
        { status := .exit_failure, pool := pool
          events := [.mutex_init true, .cond_init_buffer_available true,
                     .cond_init_buffer_free false, .perror "pthread_cond_init buffer_free",
                     .exit_failure] }
    else
      { status := .exit_failure, pool := pool
        events := [.mutex_init true, .cond_init_buffer_available false,
                   .perror "pthread_cond_init buffer_available", .exit_failure] }
  else
    { status := .exit_failure, pool := pool
      events := [.mutex_init false, .perror "pthread_mutex_init", .exit_failure] }

/-- The function `init_buffers` (lines 234-285). -/
def init_buffers (fd : Int) (pool : buffer_pool_t) (dev : init_device) : call_result :=
  match dev.reqbufs with
  | none =>
    { status := .exit_failure, pool := pool
      events := [.ioctl_reqbufs MAX_BUFFERS none, .perror "ioctl VIDIOC_REQBUFS",
                 .exit_failure] }
  | some count =>
    if count < MAX_BUFFERS then
      { status := .exit_failure, pool := pool
        events := [.ioctl_reqbufs MAX_BUFFERS (some count), .exit_failure] }
    else
      let r := init_buffers_loop dev count 0
        { pool with buffer_count := u32_to_int count, fd := fd }
      match r.status with
      | .returned =>
        let t := init_sync dev r.pool
        { t with events := .ioctl_reqbufs MAX_BUFFERS (some count) :: (r.events ++ t.events) }
      | _ => { r with events := .ioctl_reqbufs MAX_BUFFERS (some count) :: r.events }

/-- The loop of `cleanup_buffers` (lines 289-294), entered at index `i` with `n`
iterations left. -/
def cleanup_buffers_loop : Nat → Nat → buffer_pool_t → call_result
  | 0, _, pool => { status := .returned, pool := pool, events := [] }
  | n + 1, i, pool =>
    match pool.buffer_start[i]?, pool.buffers[i]? with
    | some start, some buf =>
      if start ≠ 0 ∧ buf.length > 0 then
        let r := cleanup_buffers_loop n (i + 1)
          { pool with buffer_start := pool.buffer_start.set i 0 }
        { r with events := .munmap i :: r.events }
      else cleanup_buffers_loop n (i + 1) pool
    | _, _ => { status := .out_of_bounds, pool := pool, events := [] }

/-- The function `cleanup_buffers` (lines 288-295). -/
def cleanup_buffers (pool : buffer_pool_t) : call_result :=
  cleanup_buffers_loop pool.buffer_count.toNat 0 pool

/-- What `main` meets outside itself: the argument count, the descriptor `open`
returns, the results of `VIDIOC_S_FMT`, of `init_buffers`' calls, of
`VIDIOC_STREAMON` and of the two `pthread_create`, the steps the two threads
take between their creation and the `pthread_cancel` of line 348, the answers
the consumer gets for what it still runs after that request (`late`), and how
those late calls fall between the calls `main` makes after it (`late_order`:
`true` lets the next call of `main` go first, `false` the next call of the
consumer). -/
structure main_env where
  argc : Nat
  open_fd : Int
  s_fmt_ok : Bool
  init : init_device
  streamon_ok : Bool
  create_producer_ok : Bool
  create_consumer_ok : Bool
  schedule : List thread_step
  late : List consumer_input
  late_order : List Bool

/-- How a run of `main` ends: `EXIT_SUCCESS`, `EXIT_FAILURE` (returned or through
`exit`), an access outside an array, or never: `pthread_join` does not return
because the producer has not returned within the schedule. -/
inductive main_status where
  | exit_success
  | exit_failure
  | out_of_bounds
  | joining
deriving DecidableEq, Repr

/-- The outcome of a run of `main`. -/
structure main_result where
  status : main_status
  pool : buffer_pool_t
  events : List Event
deriving DecidableEq, Repr

/-- Two sequences of calls made side by side, merged into one: `true` takes the
next call of the first sequence, `false` the next call of the second; when the
pattern or one sequence is used up, what is left follows in order. -/
def interleave : List Bool → List Event → List Event → List Event
  | [], xs, ys => xs ++ ys
  | true :: p, x :: xs, ys => x :: interleave p xs ys
  | true :: _, [], ys => ys
  | false :: p, xs, y :: ys => y :: interleave p xs ys
  | false :: _, xs, [] => xs

/-- What the consumer still does once its cancellation has been requested: the
pool it leaves, the call it had already completed when the request arrived
(`early`: the `poll` of an iteration in flight), and the calls it makes after
the request (`late`). -/
structure late_result where
  pool : buffer_pool_t
  early : List Event
  late : List Event
deriving DecidableEq, Repr

/-- The consumer after `pthread_cancel(cons)` (line 348). The request is
deferred: the thread runs on until it next calls `pthread_cond_wait` or `poll`,
and `main` never joins it. With no answer left in `late` it makes no further
call. Otherwise: suspended in `pthread_cond_wait` it is cancelled there; at the
top of its loop it runs lines 205-209 and is cancelled in the wait or the `poll`
that follows; standing at line 211 with its `poll` already returned, it runs
lines 216-228 of that iteration, the store of line 222 included, and then, if
another answer is left, lines 205-209 once more before it is cancelled.
Whether `ioctl`, `printf` and `perror` act on a pending request is left open by
POSIX; here they do not. -/
def consumer_after_cancel (late : List consumer_input) (cs : consumer_state)
    (pool : buffer_pool_t) : Option late_result :=
  match late with
  | [] => some { pool := pool, early := [], late := [] }
  | inp :: rest =>
    match cs.pc with
    | .wait_buffer_available => some { pool := pool, early := [], late := [] }
    | .loop_head =>
      (consumer_step cs pool inp).map
        fun r => { pool := r.pool, early := [], late := r.events }
    | .poll =>
      match consumer_reclaim cs pool inp with
      | none => none
      | some r =>
        match rest with
        | [] => some { pool := r.pool, early := r.events.take 1, late := r.events.drop 1 }
        | inp2 :: _ =>
          (consumer_step r.next r.pool inp2).map
            fun r2 => { pool := r2.pool, early := r.events.take 1
                        late := r.events.drop 1 ++ r2.events }

/-- Lines 347-353 of `main`, once both threads run: `pthread_join(prod)` returns
when the producer has returned; then cancellation of the consumer is requested,
and without joining it `main` unmaps the buffers and closes the device, while
the consumer may still run as `consumer_after_cancel` describes.
`cleanup_buffers` touches `buffer_start` only and the consumer `buffer_used`
only, so the pool reached does not depend on how their calls fall in time; the
order of the calls is the one `env.late_order` gives. `before` holds the events
up to the creation of the threads. -/
def main_threads (env : main_env) (pool : buffer_pool_t) (before : List Event) :
    main_result :=
  match run env.schedule (start_state pool) with
  | none => { status := .out_of_bounds, pool := pool, events := before }
  | some (s, evs) =>
    match s.producer with
    | .returned =>
      let c := cleanup_buffers s.pool
      match c.status with
      | .returned =>
        match consumer_after_cancel env.late s.consumer c.pool with
        | some l =>
          { status := .exit_success, pool := l.pool
            events := before ++ evs ++ l.early ++
              [.pthread_join_producer, .pthread_cancel_consumer] ++
              interleave env.late_order (c.events ++ [.close_fd]) l.late }
        | none =>
          { status := .out_of_bounds, pool := c.pool
            events := before ++ evs ++ [.pthread_join_producer, .pthread_cancel_consumer] ++
              c.events ++ [.close_fd] }
      | _ =>
        { status := .out_of_bounds, pool := c.pool
          events := before ++ evs ++ [.pthread_join_producer, .pthread_cancel_consumer] ++
            c.events }
    | _ => { status := .joining, pool := s.pool, events := before ++ evs }

/-- The function `main` (lines 297-354), run on the global `buffer_pool`. -/
def main (env : main_env) : main_result :=
  if env.argc ≠ 3 then
    { status := .exit_failure, pool := buffer_pool, events := [] }
  else if env.open_fd < 0 then
    { status := .exit_failure, pool := buffer_pool
      events := [.open_device false, .perror "open video device"] }
  else if !env.s_fmt_ok then
    { status := .exit_failure, pool := buffer_pool
      events := [.open_device true, .ioctl_s_fmt false, .perror "VIDIOC_S_FMT"] }
  else
    let i := init_buffers env.open_fd buffer_pool env.init
    let ev1 := [Event.open_device true, Event.ioctl_s_fmt true] ++ i.events
    match i.status with
    | .exit_failure => { status := .exit_failure, pool := i.pool, events := ev1 }
    | .out_of_bounds => { status := .out_of_bounds, pool := i.pool, events := ev1 }
    | .returned =>
      if !env.streamon_ok then
        { status := .exit_failure, pool := i.pool
          events := ev1 ++ [.ioctl_streamon false, .perror "ioctl VIDIOC_STREAMON"] }
      else if !env.create_producer_ok then
        { status := .exit_failure, pool := i.pool
          events := ev1 ++ [.ioctl_streamon true, .pthread_create_producer false,
                            .perror "pthread_create producer"] }
      else if !env.create_consumer_ok then
        { status := .exit_failure, pool := i.pool
          events := ev1 ++ [.ioctl_streamon true, .pthread_create_producer true,
                            .pthread_create_consumer false, .perror "pthread_create consumer"] }
      else
        main_threads env i.pool
          (ev1 ++ [.ioctl_streamon true, .pthread_create_producer true,
                   .pthread_create_consumer true])

/-- Slot `i` is FREE: `pool->buffer_used[i] == 0`. -/
def slot_free (pool : buffer_pool_t) (i : Nat) : Prop := pool.buffer_used[i]? = some 0

/-- Slot `i` is SUBMITTED: `pool->buffer_used[i] != 0`. -/
def slot_submitted (pool : buffer_pool_t) (i : Nat) : Prop :=
  ∃ v, pool.buffer_used[i]? = some v ∧ v ≠ 0

instance (pool : buffer_pool_t) (i : Nat) : Decidable (slot_free pool i) := by
  unfold slot_free; infer_instance

instance (pool : buffer_pool_t) (i : Nat) : Decidable (slot_submitted pool i) :=
  match h : pool.buffer_used[i]? with
  | none => isFalse (by rintro ⟨v, hv, _⟩; rw [h] at hv; cases hv)
  | some v =>
    if hv : v = 0 then isFalse (by rintro ⟨w, hw, hne⟩; rw [h] at hw; cases hw; exact hne hv)
    else isTrue ⟨v, h, hv⟩

/-- The events of a step in which the producer writes into slot `idx` or hands
it to the device. -/
def writes_or_submits (evs : List Event) (idx : Nat) : Prop :=
  Event.sws_scale idx ∈ evs ∨ ∃ ok, Event.ioctl_qbuf idx ok ∈ evs

/-- A consumer step result in which slot `j` was freed: `VIDIOC_DQBUF` reported
`j`, `buffer_free` was signalled, and `buffer_used[j]` is 0 afterwards. -/
def reclaim_frees (r : step_result consumer_state) (j : Nat) : Prop :=
  Event.ioctl_dqbuf (some j) ∈ r.events ∧ Event.cond_signal_buffer_free ∈ r.events ∧
    slot_free r.pool j

instance (r : step_result consumer_state) (j : Nat) : Decidable (reclaim_frees r j) := by
  unfold reclaim_frees; infer_instance

/-- The schedule of `K` producer steps, each with a frame at hand and a
successful `VIDIOC_QBUF`. -/
def submit_schedule (K : Nat) : List thread_step :=
  List.replicate K (.producer { frame := true, qbuf_ok := true })

/-- The schedule of consumer iterations, one per reported index: the scan under
the lock, then `poll` and a successful `VIDIOC_DQBUF` reporting that index. -/
def reclaim_schedule : List Nat → List thread_step
  | [] => []
  | j :: js =>
    .consumer { poll_ok := true, dqbuf := some j } ::
      .consumer { poll_ok := true, dqbuf := some j } :: reclaim_schedule js

/-- The indices handed to the device by successful `VIDIOC_QBUF` calls, in
order. -/
def submitted_indices (evs : List Event) : List Nat :=
  evs.filterMap fun e =>
    match e with
    | .ioctl_qbuf i true => some i
    | _ => none

/-- The indices reported by successful `VIDIOC_DQBUF` calls, in order. -/
def reclaimed_indices (evs : List Event) : List Nat :=
  evs.filterMap fun e =>
    match e with
    | .ioctl_dqbuf (some j) => some j
    | _ => none

/-- The pool `base` with `u` as its `buffer_used` array. -/
def with_used (base : buffer_pool_t) (u : List Int) : buffer_pool_t :=
  { base with buffer_used := u }

/-- The array `u` holds 1 at the indices listed in `S` and agrees with `u0`
elsewhere. -/
def marked (u0 u : List Int) (S : List Nat) : Prop :=
  u.length = u0.length ∧
    ∀ k, k < u0.length → u[k]? = if k ∈ S then some 1 else u0[k]?

/-- A device that grants `granted` buffers of 4096 bytes and answers every other
call of `init_buffers` with success. -/
def granting_device (granted : Nat) : init_device :=
  { reqbufs := some granted
    querybuf := fun i => some { index := i, length := 4096, offset := 4096 * i }
    mmap := fun i => some (4096 * (i + 1))
    mutex_init_ok := true
    cond_available_ok := true
    cond_free_ok := true }

/-- A run of `main` on a device granting `granted` buffers, every call up to the
creation of the threads succeeding, the threads following `schedule`, and the
consumer making no further call once its cancellation is requested. -/
def granting_env (granted : Nat) (schedule : List thread_step) : main_env :=
  { argc := 3
    open_fd := 3
    s_fmt_ok := true
    init := granting_device granted
    streamon_ok := true
    create_producer_ok := true
    create_consumer_ok := true
    schedule := schedule
    late := []
    late_order := [] }

/-- The calls of `m` iterations of the loop of `init_buffers` from index `i`
on, each with a successful `VIDIOC_QUERYBUF` and a successful `mmap`. -/
def mapped_events : Nat → Nat → List Event
  | _, 0 => []
  | i, m + 1 => .ioctl_querybuf i true :: .mmap i true :: mapped_events (i + 1) m

/-- A device that grants `MAX_BUFFERS` buffers and answers every call of
`init_buffers` with success, except that `mmap` fails for buffer `i`. -/
def mmap_failing_device (i : Nat) : init_device :=
  { granting_device MAX_BUFFERS with
    mmap := fun k => if k = i then none else some (4096 * (k + 1)) }

/-- The calls that switch the device stream on or off: `VIDIOC_STREAMON` and
`VIDIOC_STREAMOFF`. -/
def Event.is_stream_switch : Event → Bool
  | .ioctl_streamon _ => true
  | .ioctl_streamoff _ => true
  | _ => false

/-- A run of `main` on a device granting 32 buffers in which the producer
submits three frames and then finds the frame source exhausted, the consumer
not having run by then. -/
def three_submitted_env : main_env :=
  granting_env 32 (submit_schedule 3 ++ [.producer { frame := false, qbuf_ok := true }])

/-- A run of `main` on a device granting 32 buffers in which one frame is
submitted and reclaimed before the producer finds the frame source exhausted. -/
def one_frame_env : main_env :=
  granting_env 32
    [.producer { frame := true, qbuf_ok := true },
     .consumer { poll_ok := true, dqbuf := some 0 },
     .consumer { poll_ok := true, dqbuf := some 0 },
     .producer { frame := false, qbuf_ok := true }]

/-- The threads and the pool at the moment the producer has returned in the run
of `three_submitted_env`: slots 0, 1 and 2 submitted, the consumer still at its
entry. -/
def three_submitted_state : system_state :=
  { pool := { (init_buffers 3 buffer_pool (granting_device 32)).pool with
              buffer_used := (((List.replicate MAX_BUFFERS 0).set 0 1).set 1 1).set 2 1 }
    producer := .returned
    consumer := { pc := .loop_head, idx := -1 } }

/-- The calls of the producer in the run of `three_submitted_env`. -/
def three_submitted_events : List Event :=
  [.mutex_lock, .sws_scale 0, .ioctl_qbuf 0 true, .cond_signal_buffer_available,
   .mutex_unlock, .usleep,
   .mutex_lock, .sws_scale 1, .ioctl_qbuf 1 true, .cond_signal_buffer_available,
   .mutex_unlock, .usleep,
   .mutex_lock, .sws_scale 2, .ioctl_qbuf 2 true, .cond_signal_buffer_available,
   .mutex_unlock, .usleep]

/-- A run of `main` on a device granting 32 buffers in which the producer
submits three frames, the consumer has scanned and returned from `poll` when
the producer finds the frame source exhausted, and the consumer completes that
iteration, reclaiming index 0, after its cancellation has been requested and
while `cleanup_buffers` is unmapping. -/
def late_reclaim_env : main_env :=
  { granting_env 32
      (submit_schedule 3 ++
        [.consumer { poll_ok := true, dqbuf := none },
         .producer { frame := false, qbuf_ok := true }]) with
    late := [{ poll_ok := true, dqbuf := some 0 }]
    late_order := [true, true, false, false, false, false] }

/-! ## The two scans -/

theorem slot_states_in_bounds (pool : buffer_pool_t) (i : Nat)
    (hi : i < pool.buffer_used.length) : ¬ slot_free pool i ↔ slot_submitted pool i := by
  unfold slot_free slot_submitted
  rw [List.getElem?_eq_getElem hi]
  constructor
  · intro h
    exact ⟨_, rfl, fun h0 => h (by rw [h0])⟩
  · rintro ⟨v, hv, hne⟩ h
    rw [h] at hv
    cases hv
    exact hne rfl

theorem find_available_loop_scan (pool : buffer_pool_t) :
    ∀ (n i : Nat), i + n ≤ pool.buffer_used.length →
      (find_available_loop pool n i = some (-1, pool) ∧
          ∀ k, i ≤ k → k < i + n → ¬ slot_free pool k) ∨
      (∃ j : Nat, find_available_loop pool n i = some ((j : Int), pool) ∧ i ≤ j ∧ j < i + n ∧
          slot_free pool j ∧ ∀ k, i ≤ k → k < j → ¬ slot_free pool k) := by
  intro n
  induction n with
  | zero =>
    intro i _
    left
    refine ⟨rfl, ?_⟩
    intro k h1 h2
    omega
  | succ n ih =>
    intro i hlen
    have hi : i < pool.buffer_used.length := by omega
    have hget : pool.buffer_used[i]? = some pool.buffer_used[i] := List.getElem?_eq_getElem hi
    by_cases h0 : pool.buffer_used[i] = 0
    · right
      refine ⟨i, ?_, le_refl i, by omega, ?_, ?_⟩
      · simp [find_available_loop, hget, h0]
      · unfold slot_free
        rw [hget, h0]
      · intro k h1 h2
        omega
    · have hstep : find_available_loop pool (n + 1) i = find_available_loop pool n (i + 1) := by
        simp [find_available_loop, hget, h0]
      have hnot : ¬ slot_free pool i := by
        unfold slot_free
        rw [hget]
        intro h
        exact h0 (Option.some.inj h)
      rcases ih (i + 1) (by omega) with ⟨hr, hall⟩ | ⟨j, hr, hj1, hj2, hfree, hall⟩
      · left
        refine ⟨by rw [hstep, hr], ?_⟩
        intro k h1 h2
        by_cases hk : k = i
        · rw [hk]; exact hnot
        · exact hall k (by omega) (by omega)
      · right
        refine ⟨j, by rw [hstep, hr], by omega, by omega, hfree, ?_⟩
        intro k h1 h2
        by_cases hk : k = i
        · rw [hk]; exact hnot
        · exact hall k (by omega) h2

theorem find_used_loop_scan (pool : buffer_pool_t) :
    ∀ (n i : Nat), i + n ≤ pool.buffer_used.length →
      (find_used_loop pool n i = some (-1, pool) ∧
          ∀ k, i ≤ k → k < i + n → ¬ slot_submitted pool k) ∨
      (∃ j : Nat, find_used_loop pool n i = some ((j : Int), pool) ∧ i ≤ j ∧ j < i + n ∧
          slot_submitted pool j ∧ ∀ k, i ≤ k → k < j → ¬ slot_submitted pool k) := by
  intro n
  induction n with
  | zero =>
    intro i _
    left
    refine ⟨rfl, ?_⟩
    intro k h1 h2
    omega
  | succ n ih =>
    intro i hlen
    have hi : i < pool.buffer_used.length := by omega
    have hget : pool.buffer_used[i]? = some pool.buffer_used[i] := List.getElem?_eq_getElem hi
    by_cases h0 : pool.buffer_used[i] = 0
    · have hstep : find_used_loop pool (n + 1) i = find_used_loop pool n (i + 1) := by
        simp [find_used_loop, hget, h0]
      have hnot : ¬ slot_submitted pool i := by
        rintro ⟨v, hv, hne⟩
        rw [hget] at hv
        exact hne ((Option.some.inj hv).symm.trans h0)
      rcases ih (i + 1) (by omega) with ⟨hr, hall⟩ | ⟨j, hr, hj1, hj2, hsub, hall⟩
      · left
        refine ⟨by rw [hstep, hr], ?_⟩
        intro k h1 h2
        by_cases hk : k = i
        · rw [hk]; exact hnot
        · exact hall k (by omega) (by omega)
      · right
        refine ⟨j, by rw [hstep, hr], by omega, by omega, hsub, ?_⟩
        intro k h1 h2
        by_cases hk : k = i
        · rw [hk]; exact hnot
        · exact hall k (by omega) h2
    · right
      refine ⟨i, ?_, le_refl i, by omega, ⟨_, hget, h0⟩, ?_⟩
      · simp [find_used_loop, hget, h0]
      · intro k h1 h2
        omega

/-- The scan for a free slot, by cases on its outcome: `-1` with no free slot
below `buffer_count`, or the lowest free index below `buffer_count`. -/
theorem find_available_buffer_cases (pool : buffer_pool_t)
    (h : pool.buffer_count ≤ pool.buffer_used.length) :
    (find_available_buffer pool = some (-1, pool) ∧
        ∀ k : Nat, (k : Int) < pool.buffer_count → ¬ slot_free pool k) ∨
    (∃ j : Nat, find_available_buffer pool = some ((j : Int), pool) ∧
        (j : Int) < pool.buffer_count ∧ slot_free pool j ∧
        ∀ k : Nat, k < j → ¬ slot_free pool k) := by
  rcases find_available_loop_scan pool pool.buffer_count.toNat 0 (by omega) with
    ⟨hr, hall⟩ | ⟨j, hr, _, hj, hfree, hall⟩
  · left
    exact ⟨hr, fun k hk => hall k (Nat.zero_le k) (by omega)⟩
  · right
    exact ⟨j, hr, by omega, hfree, fun k hk => hall k (Nat.zero_le k) hk⟩

/-- The scan for a submitted slot, by cases on its outcome. -/
theorem find_used_buffer_cases (pool : buffer_pool_t)
    (h : pool.buffer_count ≤ pool.buffer_used.length) :
    (find_used_buffer pool = some (-1, pool) ∧
        ∀ k : Nat, (k : Int) < pool.buffer_count → ¬ slot_submitted pool k) ∨
    (∃ j : Nat, find_used_buffer pool = some ((j : Int), pool) ∧
        (j : Int) < pool.buffer_count ∧ slot_submitted pool j ∧
        ∀ k : Nat, k < j → ¬ slot_submitted pool k) := by
  rcases find_used_loop_scan pool pool.buffer_count.toNat 0 (by omega) with
    ⟨hr, hall⟩ | ⟨j, hr, _, hj, hsub, hall⟩
  · left
    exact ⟨hr, fun k hk => hall k (Nat.zero_le k) (by omega)⟩
  · right
    exact ⟨j, hr, by omega, hsub, fun k hk => hall k (Nat.zero_le k) hk⟩

/-- C1. For every pool whose `buffer_count` does not exceed the `buffer_used`
array, `find_available_buffer` returns a value `r` and leaves the pool as it
was; `r` is `-1` exactly when no index below `buffer_count` is FREE, and
otherwise `r` is the lowest index `i` with `0 <= i < buffer_count` and
`buffer_used[i] == 0`. -/
theorem find_available_buffer_lowest_free (pool : buffer_pool_t)
    (h : pool.buffer_count ≤ pool.buffer_used.length) :
    ∃ r : Int, find_available_buffer pool = some (r, pool) ∧
      (r = -1 ↔ ¬ ∃ i : Nat, (i : Int) < pool.buffer_count ∧ slot_free pool i) ∧
      (r ≠ -1 → ∃ i : Nat, r = i ∧ (i : Int) < pool.buffer_count ∧ slot_free pool i ∧
          ∀ k : Nat, k < i → ¬ slot_free pool k) := by
  rcases find_available_buffer_cases pool h with ⟨hr, hall⟩ | ⟨j, hr, hj, hfree, hall⟩
  · refine ⟨-1, hr, ?_, ?_⟩
    · constructor
      · rintro _ ⟨i, hi, hf⟩
        exact hall i hi hf
      · intro _
        rfl
    · intro hne
      exact absurd rfl hne
  · refine ⟨j, hr, ?_, ?_⟩
    · constructor
      · intro hneg
        omega
      · intro hno
        exact absurd ⟨j, hj, hfree⟩ hno
    · intro _
      exact ⟨j, rfl, hj, hfree, hall⟩

/-- C1, at a concrete pool: four slots of which 0 and 1 are submitted; the scan
returns 2. -/
theorem find_available_buffer_lowest_free_witness :
    ∃ r : Int,
      find_available_buffer { buffer_pool with buffer_used := [1, 1, 0, 0], buffer_count := 4 } =
        some (r, { buffer_pool with buffer_used := [1, 1, 0, 0], buffer_count := 4 }) ∧
      (r = -1 ↔ ¬ ∃ i : Nat, (i : Int) <
          ({ buffer_pool with buffer_used := [1, 1, 0, 0], buffer_count := 4 } :
            buffer_pool_t).buffer_count ∧
          slot_free { buffer_pool with buffer_used := [1, 1, 0, 0], buffer_count := 4 } i) ∧
      (r ≠ -1 → ∃ i : Nat, r = i ∧ (i : Int) <
          ({ buffer_pool with buffer_used := [1, 1, 0, 0], buffer_count := 4 } :
            buffer_pool_t).buffer_count ∧
          slot_free { buffer_pool with buffer_used := [1, 1, 0, 0], buffer_count := 4 } i ∧
          ∀ k : Nat, k < i →
            ¬ slot_free { buffer_pool with buffer_used := [1, 1, 0, 0], buffer_count := 4 } k) :=
  find_available_buffer_lowest_free
    { buffer_pool with buffer_used := [1, 1, 0, 0], buffer_count := 4 } (by decide)

/-- C2. For every pool whose `buffer_count` does not exceed the `buffer_used`
array, `find_used_buffer` returns a value `r` and leaves the pool as it was;
`r` is `-1` exactly when no index below `buffer_count` is SUBMITTED, and
otherwise `r` is the lowest index `i` with `0 <= i < buffer_count` and
`buffer_used[i] != 0`. -/
theorem find_used_buffer_lowest_submitted (pool : buffer_pool_t)
    (h : pool.buffer_count ≤ pool.buffer_used.length) :
    ∃ r : Int, find_used_buffer pool = some (r, pool) ∧
      (r = -1 ↔ ¬ ∃ i : Nat, (i : Int) < pool.buffer_count ∧ slot_submitted pool i) ∧
      (r ≠ -1 → ∃ i : Nat, r = i ∧ (i : Int) < pool.buffer_count ∧ slot_submitted pool i ∧
          ∀ k : Nat, k < i → ¬ slot_submitted pool k) := by
  rcases find_used_buffer_cases pool h with ⟨hr, hall⟩ | ⟨j, hr, hj, hsub, hall⟩
  · refine ⟨-1, hr, ?_, ?_⟩
    · constructor
      · rintro _ ⟨i, hi, hf⟩
        exact hall i hi hf
      · intro _
        rfl
    · intro hne
      exact absurd rfl hne
  · refine ⟨j, hr, ?_, ?_⟩
    · constructor
      · intro hneg
        omega
      · intro hno
        exact absurd ⟨j, hj, hsub⟩ hno
    · intro _
      exact ⟨j, rfl, hj, hsub, hall⟩

/-- C2, at a concrete pool: four slots of which 2 and 3 are submitted; the scan
returns 2. -/
theorem find_used_buffer_lowest_submitted_witness :
    ∃ r : Int,
      find_used_buffer { buffer_pool with buffer_used := [0, 0, 1, 1], buffer_count := 4 } =
        some (r, { buffer_pool with buffer_used := [0, 0, 1, 1], buffer_count := 4 }) ∧
      (r = -1 ↔ ¬ ∃ i : Nat, (i : Int) <
          ({ buffer_pool with buffer_used := [0, 0, 1, 1], buffer_count := 4 } :
            buffer_pool_t).buffer_count ∧
          slot_submitted { buffer_pool with buffer_used := [0, 0, 1, 1], buffer_count := 4 } i) ∧
      (r ≠ -1 → ∃ i : Nat, r = i ∧ (i : Int) <
          ({ buffer_pool with buffer_used := [0, 0, 1, 1], buffer_count := 4 } :
            buffer_pool_t).buffer_count ∧
          slot_submitted { buffer_pool with buffer_used := [0, 0, 1, 1], buffer_count := 4 } i ∧
          ∀ k : Nat, k < i →
            ¬ slot_submitted
              { buffer_pool with buffer_used := [0, 0, 1, 1], buffer_count := 4 } k) :=
  find_used_buffer_lowest_submitted
    { buffer_pool with buffer_used := [0, 0, 1, 1], buffer_count := 4 } (by decide)

/-! ## One pass of the producer -/

theorem slot_free_not_submitted (pool : buffer_pool_t) (i : Nat) (h : slot_free pool i) :
    ¬ slot_submitted pool i := by
  rintro ⟨v, hv, hne⟩
  unfold slot_free at h
  rw [h] at hv
  exact hne (Option.some.inj hv).symm

/-- The pass of the producer through its critical section, by cases on the
scan: it waits, or it claims the lowest free slot `j`, writes, and queues. -/
theorem producer_claim_cases (pool : buffer_pool_t) (hlay : pool.laid_out)
    (hc : pool.buffer_count ≤ MAX_BUFFERS) (qbuf_ok : Bool) :
    ((∀ k : Nat, (k : Int) < pool.buffer_count → ¬ slot_free pool k) ∧
      producer_claim pool qbuf_ok =
        some { next := .wait_buffer_free, pool := pool, events := [.cond_wait_buffer_free] }) ∨
    (∃ j : Nat, (j : Int) < pool.buffer_count ∧ slot_free pool j ∧
      (∀ k : Nat, k < j → ¬ slot_free pool k) ∧
      producer_claim pool qbuf_ok =
        some (if qbuf_ok then
            { next := .receive_frame
              pool := { pool with buffer_used := pool.buffer_used.set j 1 }
              events := [.sws_scale j, .ioctl_qbuf j true, .cond_signal_buffer_available,
                         .mutex_unlock, .usleep] }
          else
            { next := .receive_frame, pool := pool
              events := [.sws_scale j, .ioctl_qbuf j false, .perror "ioctl VIDIOC_QBUF",
                         .mutex_unlock, .usleep] })) := by
  obtain ⟨_, hstart, hused⟩ := hlay
  rcases find_available_buffer_cases pool (by rw [hused]; exact hc) with
    ⟨hr, hall⟩ | ⟨j, hr, hj, hfree, hall⟩
  · left
    refine ⟨hall, ?_⟩
    simp [producer_claim, hr]
  · right
    refine ⟨j, hj, hfree, hall, ?_⟩
    have hjlen : j < pool.buffer_start.length := by
      rw [hstart]
      exact_mod_cast lt_of_lt_of_le hj hc
    have hget : pool.buffer_start[j]? = some pool.buffer_start[j] :=
      List.getElem?_eq_getElem hjlen
    have hneg : ¬ ((j : Int) < 0) := by omega
    cases qbuf_ok <;> simp [producer_claim, hr, hneg, hget]

/-- The pass of the producer through its critical section is defined on a
laid-out pool, keeps the layout and `buffer_count`, and writes into or queues
only a slot that is free. -/
theorem producer_claim_defined (pool : buffer_pool_t) (qbuf_ok : Bool)
    (hlay : pool.laid_out) (hc : pool.buffer_count ≤ MAX_BUFFERS) :
    ∃ r, producer_claim pool qbuf_ok = some r ∧ r.pool.laid_out ∧
      r.pool.buffer_count = pool.buffer_count ∧
      (∀ idx, writes_or_submits r.events idx →
        (idx : Int) < pool.buffer_count ∧ slot_free pool idx) := by
  rcases producer_claim_cases pool hlay hc qbuf_ok with ⟨_, hr⟩ | ⟨j, hj, hfree, _, hr⟩
  · exact ⟨_, hr, hlay, rfl, by simp [writes_or_submits]⟩
  · cases qbuf_ok
    · simp only [Bool.false_eq_true, if_false] at hr
      refine ⟨_, hr, hlay, rfl, ?_⟩
      intro idx hw
      have : idx = j := by simpa [writes_or_submits] using hw
      rw [this]
      exact ⟨hj, hfree⟩
    · simp only [if_true] at hr
      obtain ⟨h1, h2, h3⟩ := hlay
      refine ⟨_, hr, ⟨h1, h2, by simpa using h3⟩, rfl, ?_⟩
      intro idx hw
      have : idx = j := by simpa [writes_or_submits] using hw
      rw [this]
      exact ⟨hj, hfree⟩

/-- A producer step is either the return of the thread (or the idling of a
returned thread), or a pass through the critical section preceded by the lock
or by the wake-up from the wait. -/
theorem producer_step_shape (pc : producer_pc) (pool : buffer_pool_t)
    (inp : producer_input) (r0 : step_result producer_pc)
    (h : producer_claim pool inp.qbuf_ok = some r0) :
    ((pc = .returned ∨ (pc = .receive_frame ∧ inp.frame = false)) ∧
      producer_step pc pool inp = some { next := .returned, pool := pool, events := [] }) ∨
    ∃ e, (e = Event.mutex_lock ∨ e = Event.cond_wake_buffer_free) ∧
      producer_step pc pool inp = some { r0 with events := e :: r0.events } := by
  cases pc with
  | returned => left; exact ⟨Or.inl rfl, rfl⟩
  | receive_frame =>
    by_cases hf : inp.frame = true
    · right
      exact ⟨_, Or.inl rfl, by simp [producer_step, hf, h]⟩
    · left
      exact ⟨Or.inr ⟨rfl, by simpa using hf⟩, by simp [producer_step, hf]⟩
  | wait_buffer_free =>
    right
    exact ⟨_, Or.inr rfl, by simp [producer_step, h]⟩

/-- A producer step from a laid-out pool is defined, keeps the layout and
`buffer_count`, and writes into or queues only a slot that is free. -/
theorem producer_step_defined (pc : producer_pc) (pool : buffer_pool_t)
    (inp : producer_input) (hlay : pool.laid_out) (hc : pool.buffer_count ≤ MAX_BUFFERS) :
    ∃ r, producer_step pc pool inp = some r ∧ r.pool.laid_out ∧
      r.pool.buffer_count = pool.buffer_count ∧
      (∀ idx, writes_or_submits r.events idx →
        (idx : Int) < pool.buffer_count ∧ slot_free pool idx) := by
  obtain ⟨r0, hr0, hl0, hc0, hw0⟩ := producer_claim_defined pool inp.qbuf_ok hlay hc
  rcases producer_step_shape pc pool inp r0 hr0 with ⟨_, h⟩ | ⟨e, he, h⟩
  · exact ⟨_, h, hlay, rfl, by simp [writes_or_submits]⟩
  · refine ⟨_, h, hl0, hc0, ?_⟩
    intro idx hw
    apply hw0 idx
    rcases he with he | he <;> simpa [writes_or_submits, he] using hw

/-! ## One pass of the consumer -/

/-- The first critical section of the consumer, by cases on the scan: it waits,
or it goes on to `poll` with the lowest submitted index in `idx`. -/
theorem consumer_check_cases (pool : buffer_pool_t) (hlay : pool.laid_out)
    (hc : pool.buffer_count ≤ MAX_BUFFERS) :
    ((∀ k : Nat, (k : Int) < pool.buffer_count → ¬ slot_submitted pool k) ∧
      consumer_check pool =
        some { next := { pc := .wait_buffer_available, idx := -1 }, pool := pool
               events := [.cond_wait_buffer_available] }) ∨
    (∃ j : Nat, (j : Int) < pool.buffer_count ∧ slot_submitted pool j ∧
      (∀ k : Nat, k < j → ¬ slot_submitted pool k) ∧
      consumer_check pool =
        some { next := { pc := .poll, idx := j }, pool := pool, events := [.mutex_unlock] }) := by
  obtain ⟨_, _, hused⟩ := hlay
  rcases find_used_buffer_cases pool (by rw [hused]; exact hc) with
    ⟨hr, hall⟩ | ⟨j, hr, hj, hsub, hall⟩
  · left
    refine ⟨hall, ?_⟩
    simp [consumer_check, hr]
  · right
    refine ⟨j, hj, hsub, hall, ?_⟩
    have hneg : ¬ ((j : Int) < 0) := by omega
    simp [consumer_check, hr, hneg]

/-- A consumer step from the loop head or from the wait is the first critical
section preceded by the lock or by the wake-up. -/
theorem consumer_step_shape (pc : consumer_pc) (idx : Int) (pool : buffer_pool_t)
    (inp : consumer_input) (r0 : step_result consumer_state) (hpc : pc ≠ .poll)
    (h : consumer_check pool = some r0) :
    ∃ e, (e = Event.mutex_lock ∨ e = Event.cond_wake_buffer_available) ∧
      consumer_step { pc := pc, idx := idx } pool inp =
        some { r0 with events := e :: r0.events } := by
  cases pc with
  | poll => exact absurd rfl hpc
  | loop_head => exact ⟨_, Or.inl rfl, by simp [consumer_step, h]⟩
  | wait_buffer_available => exact ⟨_, Or.inr rfl, by simp [consumer_step, h]⟩

/-- The first critical section of the consumer leaves the pool as it was. -/
theorem consumer_check_pool (pool : buffer_pool_t) (hlay : pool.laid_out)
    (hc : pool.buffer_count ≤ MAX_BUFFERS) :
    ∃ r, consumer_check pool = some r ∧ r.pool = pool := by
  rcases consumer_check_cases pool hlay hc with ⟨_, hr⟩ | ⟨j, _, _, _, hr⟩
  · exact ⟨_, hr, rfl⟩
  · exact ⟨_, hr, rfl⟩

/-- A consumer step that is defined keeps the layout and `buffer_count`. -/
theorem consumer_step_keeps_layout (cs : consumer_state) (pool : buffer_pool_t)
    (inp : consumer_input) (r : step_result consumer_state)
    (hlay : pool.laid_out) (hc : pool.buffer_count ≤ MAX_BUFFERS)
    (h : consumer_step cs pool inp = some r) :
    r.pool.laid_out ∧ r.pool.buffer_count = pool.buffer_count := by
  obtain ⟨r0, hr0, hp0⟩ := consumer_check_pool pool hlay hc
  unfold consumer_step at h
  cases hpc : cs.pc with
  | loop_head =>
    simp only [hpc, hr0, Option.map_some', Option.some.injEq] at h
    subst h
    simpa [hp0] using hlay
  | wait_buffer_available =>
    simp only [hpc, hr0, Option.map_some', Option.some.injEq] at h
    subst h
    simpa [hp0] using hlay
  | poll =>
    simp only [hpc] at h
    unfold consumer_reclaim at h
    by_cases hp : inp.poll_ok = true
    · simp only [hp, if_true] at h
      cases hd : inp.dqbuf with
      | none =>
        simp only [hd, Option.some.injEq] at h
        subst h
        exact ⟨hlay, rfl⟩
      | some j =>
        simp only [hd] at h
        by_cases hj : j < pool.buffer_used.length
        · simp only [hj, if_true, Option.some.injEq] at h
          subst h
          obtain ⟨h1, h2, h3⟩ := hlay
          exact ⟨⟨h1, h2, by simpa using h3⟩, rfl⟩
        · simp [hj] at h
    · simp only [hp, Bool.false_eq_true, if_false, Option.some.injEq] at h
      subst h
      exact ⟨hlay, rfl⟩

/-- A schedule that runs to its end keeps the layout and `buffer_count`. -/
theorem run_keeps_layout :
    ∀ (sched : List thread_step) (s s1 : system_state) (evs : List Event),
      s.pool.laid_out → s.pool.buffer_count ≤ MAX_BUFFERS →
      run sched s = some (s1, evs) →
      s1.pool.laid_out ∧ s1.pool.buffer_count = s.pool.buffer_count := by
  intro sched
  induction sched with
  | nil =>
    intro s s1 evs hlay _ h
    simp only [run, Option.some.injEq, Prod.mk.injEq] at h
    rw [← h.1]
    exact ⟨hlay, rfl⟩
  | cons t ts ih =>
    intro s s1 evs hlay hc h
    unfold run at h
    cases hstep : system_step s t with
    | none => simp [hstep] at h
    | some p =>
      obtain ⟨s2, evs2⟩ := p
      simp only [hstep] at h
      cases hrest : run ts s2 with
      | none => simp [hrest] at h
      | some q =>
        obtain ⟨s3, evs3⟩ := q
        simp only [hrest, Option.map_some', Option.some.injEq, Prod.mk.injEq] at h
        have hs2 : s2.pool.laid_out ∧ s2.pool.buffer_count = s.pool.buffer_count := by
          cases t with
          | producer inp =>
            obtain ⟨r, hr, hl, hcount, _⟩ := producer_step_defined s.producer s.pool inp hlay hc
            simp only [system_step, hr, Option.map_some', Option.some.injEq,
              Prod.mk.injEq] at hstep
            rw [← hstep.1]
            exact ⟨hl, hcount⟩
          | consumer inp =>
            cases hcs : consumer_step s.consumer s.pool inp with
            | none => simp [system_step, hcs] at hstep
            | some r =>
              simp only [system_step, hcs, Option.map_some', Option.some.injEq,
                Prod.mk.injEq] at hstep
              rw [← hstep.1]
              exact consumer_step_keeps_layout s.consumer s.pool inp r hlay hc hcs
        have h3 := ih s2 s3 evs3 hs2.1 (by rw [hs2.2]; exact hc) hrest
        rw [← h.1]
        exact ⟨h3.1, h3.2.trans hs2.2⟩

/-! ## The producer and the consumer, step by step -/

/-- C3. In every state reached from a pool laid out as the struct (the all-free
pool that `init_buffers` leaves among them) by any schedule of producer and
consumer steps, the empty schedule included, the next producer step is defined,
and every slot `idx` it writes pixel data into or submits is below
`buffer_count` and FREE in that state: `buffer_used[idx] == 0`, so it is not
SUBMITTED. -/
theorem producer_writes_only_free_slot (pool0 : buffer_pool_t) (pc0 : producer_pc)
    (cs0 : consumer_state) (hlay : pool0.laid_out) (hc : pool0.buffer_count ≤ MAX_BUFFERS)
    (sched : List thread_step) (s : system_state) (evs : List Event)
    (hrun : run sched { pool := pool0, producer := pc0, consumer := cs0 } = some (s, evs))
    (inp : producer_input) :
    ∃ r, producer_step s.producer s.pool inp = some r ∧
      ∀ idx, writes_or_submits r.events idx →
        (idx : Int) < s.pool.buffer_count ∧ slot_free s.pool idx ∧
          ¬ slot_submitted s.pool idx := by
  obtain ⟨hl, hcount⟩ := run_keeps_layout sched _ s evs hlay hc hrun
  have hc1 : s.pool.buffer_count ≤ MAX_BUFFERS := by
    rw [hcount]
    exact hc
  obtain ⟨r, hr, _, _, hw⟩ := producer_step_defined s.producer s.pool inp hl hc1
  refine ⟨r, hr, ?_⟩
  intro idx hidx
  obtain ⟨h1, h2⟩ := hw idx hidx
  exact ⟨h1, h2, slot_free_not_submitted s.pool idx h2⟩

/-- C3, at a concrete run: from the all-free pool of 32 slots the producer has
submitted slot 0; its next step writes into slot 1 only. -/
theorem producer_writes_only_free_slot_witness :
    ∃ r, producer_step .receive_frame
        { all_free 32 with buffer_used := (all_free 32).buffer_used.set 0 1 }
        { frame := true, qbuf_ok := true } = some r ∧
      ∀ idx, writes_or_submits r.events idx →
        (idx : Int) < 32 ∧
          slot_free { all_free 32 with buffer_used := (all_free 32).buffer_used.set 0 1 } idx ∧
          ¬ slot_submitted
            { all_free 32 with buffer_used := (all_free 32).buffer_used.set 0 1 } idx :=
  producer_writes_only_free_slot (all_free 32) .receive_frame { pc := .loop_head, idx := -1 }
    (by decide) (by decide) [.producer { frame := true, qbuf_ok := true }]
    { pool := { all_free 32 with buffer_used := (all_free 32).buffer_used.set 0 1 }
      producer := .receive_frame, consumer := { pc := .loop_head, idx := -1 } }
    [.mutex_lock, .sws_scale 0, .ioctl_qbuf 0 true, .cond_signal_buffer_available,
      .mutex_unlock, .usleep]
    (by rfl) { frame := true, qbuf_ok := true }

/-- C4. For every laid-out pool and every producer step in which
`VIDIOC_QBUF` fails: the step is defined and leaves the pool exactly as it was,
so no slot becomes SUBMITTED; `buffer_available` is not signalled; the slot
whose submit failed is still FREE and the thread is back at the frame loop, not
returned. Whenever the pool has a free slot and the thread has a frame at hand,
the failing submit is indeed attempted. -/
theorem qbuf_failure_leaves_pool (pc : producer_pc) (pool : buffer_pool_t) (frame : Bool)
    (hlay : pool.laid_out) (hc : pool.buffer_count ≤ MAX_BUFFERS) :
    ∃ r, producer_step pc pool { frame := frame, qbuf_ok := false } = some r ∧
      r.pool = pool ∧
      Event.cond_signal_buffer_available ∉ r.events ∧
      (∀ idx, Event.ioctl_qbuf idx false ∈ r.events →
        slot_free r.pool idx ∧ r.next = .receive_frame) ∧
      (pc ≠ .returned → (pc = .receive_frame → frame = true) →
        (∃ j : Nat, (j : Int) < pool.buffer_count ∧ slot_free pool j) →
        ∃ idx, Event.ioctl_qbuf idx false ∈ r.events) := by
  rcases producer_claim_cases pool hlay hc false with ⟨hnone, hr⟩ | ⟨j, hj, hfree, _, hr⟩
  · rcases producer_step_shape pc pool { frame := frame, qbuf_ok := false } _ hr with
      ⟨hpc, h⟩ | ⟨e, he, h⟩
    · refine ⟨_, h, rfl, by simp, by simp, ?_⟩
      rintro _ _ ⟨k, hk, hkf⟩
      exact absurd hkf (hnone k hk)
    · refine ⟨_, h, rfl, ?_, ?_, ?_⟩
      · rcases he with he | he <;> simp [he]
      · rcases he with he | he <;> simp [he]
      · rintro _ _ ⟨k, hk, hkf⟩
        exact absurd hkf (hnone k hk)
  · simp only [Bool.false_eq_true, if_false] at hr
    rcases producer_step_shape pc pool { frame := frame, qbuf_ok := false } _ hr with
      ⟨hpc, h⟩ | ⟨e, he, h⟩
    · refine ⟨_, h, rfl, by simp, by simp, ?_⟩
      intro h1 h2 _
      rcases hpc with hpc | ⟨hpc, hfr⟩
      · exact absurd hpc h1
      · have := h2 hpc
        simp only at hfr
        rw [hfr] at this
        cases this
    · refine ⟨_, h, rfl, ?_, ?_, ?_⟩
      · rcases he with he | he <;> simp [he]
      · intro idx hidx
        have : idx = j := by
          rcases he with he | he <;> simpa [he] using hidx
        rw [this]
        exact ⟨hfree, rfl⟩
      · intro _ _ _
        exact ⟨j, by simp⟩

/-- C4, at a concrete pool: the all-free pool of 32 slots, the producer at the
frame loop with a frame at hand. -/
theorem qbuf_failure_leaves_pool_witness :
    ∃ r, producer_step .receive_frame (all_free 32) { frame := true, qbuf_ok := false } =
        some r ∧
      r.pool = all_free 32 ∧
      Event.cond_signal_buffer_available ∉ r.events ∧
      (∀ idx, Event.ioctl_qbuf idx false ∈ r.events →
        slot_free r.pool idx ∧ r.next = .receive_frame) ∧
      (producer_pc.receive_frame ≠ .returned →
        (producer_pc.receive_frame = .receive_frame → true = true) →
        (∃ j : Nat, (j : Int) < (all_free 32).buffer_count ∧ slot_free (all_free 32) j) →
        ∃ idx, Event.ioctl_qbuf idx false ∈ r.events) :=
  qbuf_failure_leaves_pool .receive_frame (all_free 32) true (by decide) (by decide)

/-- C5. For every pool and every index `j` inside the `buffer_used` array that
a successful `VIDIOC_DQBUF` reports, the consumer step is defined, slot `j` is
FREE after it, every other slot and every other field of the pool is as before,
and the resulting pool is the same whatever value the local `idx` (the result of
the earlier `find_used_buffer`) holds. The pool keeps no record of submission
order, so the step cannot depend on it. -/
theorem consumer_frees_reported_slot (cs : consumer_state) (pool : buffer_pool_t) (j : Nat)
    (hpc : cs.pc = .poll) (hj : j < pool.buffer_used.length) :
    ∃ r, consumer_step cs pool { poll_ok := true, dqbuf := some j } = some r ∧
      Event.ioctl_dqbuf (some j) ∈ r.events ∧
      slot_free r.pool j ∧
      (∀ k, k ≠ j → r.pool.buffer_used[k]? = pool.buffer_used[k]?) ∧
      r.pool.buffer_used.length = pool.buffer_used.length ∧
      r.pool.buffer_count = pool.buffer_count ∧
      r.pool.buffer_start = pool.buffer_start ∧ r.pool.buffers = pool.buffers ∧
      r.pool.fd = pool.fd ∧
      ∀ idx : Int,
        (consumer_step { cs with idx := idx } pool { poll_ok := true, dqbuf := some j }).map
          (fun q => q.pool) = some r.pool := by
  refine ⟨{ next := { cs with pc := .loop_head }
            pool := { pool with buffer_used := pool.buffer_used.set j 0 }
            events := [.poll true, .mutex_lock, .ioctl_dqbuf (some j),
                       .cond_signal_buffer_free, .mutex_unlock] }, ?_, ?_, ?_, ?_, ?_, rfl, rfl,
          rfl, rfl, ?_⟩
  · simp [consumer_step, hpc, consumer_reclaim, hj]
  · simp
  · simp [slot_free, hj]
  · intro k hk
    simp only
    rw [List.getElem?_set_ne (Ne.symm hk)]
  · simp
  · intro idx
    simp [consumer_step, hpc, consumer_reclaim, hj]

/-- C5, at a concrete pool: slots 0 and 1 of 32 submitted, the device reports 1
while `idx` holds 0. -/
theorem consumer_frees_reported_slot_witness :
    ∃ r, consumer_step { pc := .poll, idx := 0 }
        { all_free 32 with buffer_used := ((all_free 32).buffer_used.set 0 1).set 1 1 }
        { poll_ok := true, dqbuf := some 1 } = some r ∧
      Event.ioctl_dqbuf (some 1) ∈ r.events ∧
      slot_free r.pool 1 ∧
      (∀ k, k ≠ 1 → r.pool.buffer_used[k]? =
        (((all_free 32).buffer_used.set 0 1).set 1 1)[k]?) ∧
      r.pool.buffer_used.length = (((all_free 32).buffer_used.set 0 1).set 1 1).length ∧
      r.pool.buffer_count = 32 ∧
      r.pool.buffer_start = (all_free 32).buffer_start ∧
      r.pool.buffers = (all_free 32).buffers ∧
      r.pool.fd = 0 ∧
      ∀ idx : Int,
        (consumer_step { pc := .poll, idx := idx }
          { all_free 32 with buffer_used := ((all_free 32).buffer_used.set 0 1).set 1 1 }
          { poll_ok := true, dqbuf := some 1 }).map (fun q => q.pool) = some r.pool :=
  consumer_frees_reported_slot { pc := .poll, idx := 0 }
    { all_free 32 with buffer_used := ((all_free 32).buffer_used.set 0 1).set 1 1 } 1
    rfl (by decide)

/-- C6. For every pool, when `VIDIOC_DQBUF` fails in a consumer step the step
is defined, the pool is exactly as before, `buffer_free` is not signalled, and
the thread is back at the top of its `while (1)` loop. -/
theorem reclaim_failure_leaves_pool (cs : consumer_state) (pool : buffer_pool_t)
    (hpc : cs.pc = .poll) :
    ∃ r, consumer_step cs pool { poll_ok := true, dqbuf := none } = some r ∧
      Event.ioctl_dqbuf none ∈ r.events ∧
      r.pool = pool ∧
      Event.cond_signal_buffer_free ∉ r.events ∧
      r.next.pc = .loop_head := by
  refine ⟨{ next := { cs with pc := .loop_head }, pool := pool
            events := [.poll true, .mutex_lock, .ioctl_dqbuf none,
                       .perror "ioctl VIDIOC_DQBUF", .mutex_unlock] }, ?_, ?_, rfl, ?_, rfl⟩
  · simp [consumer_step, hpc, consumer_reclaim]
  · simp
  · simp

/-- C6, at a concrete pool: slot 0 of 32 submitted. -/
theorem reclaim_failure_leaves_pool_witness :
    ∃ r, consumer_step { pc := .poll, idx := 0 }
        { all_free 32 with buffer_used := (all_free 32).buffer_used.set 0 1 }
        { poll_ok := true, dqbuf := none } = some r ∧
      Event.ioctl_dqbuf none ∈ r.events ∧
      r.pool = { all_free 32 with buffer_used := (all_free 32).buffer_used.set 0 1 } ∧
      Event.cond_signal_buffer_free ∉ r.events ∧
      r.next.pc = .loop_head :=
  reclaim_failure_leaves_pool { pc := .poll, idx := 0 }
    { all_free 32 with buffer_used := (all_free 32).buffer_used.set 0 1 } rfl

/-- C7, as stated, fails. From the all-free pool of 32 slots the producer
submits slots 0 and 1; the consumer scans, reclaims index 0, scans again (slot
1 is still submitted) and the device reports index 0 a second time. Slot 0 is
not SUBMITTED at that moment, yet the consumer step stores 0 into
`buffer_used[0]` and signals `buffer_free`. -/
theorem consumer_frees_slot_not_submitted :
    ∃ s evs r,
      run [.producer { frame := true, qbuf_ok := true },
           .producer { frame := true, qbuf_ok := true },
           .consumer { poll_ok := true, dqbuf := none },
           .consumer { poll_ok := true, dqbuf := some 0 },
           .consumer { poll_ok := true, dqbuf := none }]
        (start_state (all_free 32)) = some (s, evs) ∧
      s.consumer.pc = .poll ∧
      ¬ slot_submitted s.pool 0 ∧
      consumer_step s.consumer s.pool { poll_ok := true, dqbuf := some 0 } = some r ∧
      reclaim_frees r 0 :=
  ⟨_, _, _, rfl, rfl, by decide, rfl, by decide⟩

/-- C7, amended. The consumer does not test the slot the device reports: for
every laid-out pool and every reported index `j` inside the array, the reclaim
step stores 0 into `buffer_used[j]` and signals `buffer_free` whatever the state
of slot `j`; a slot that was already FREE stays FREE and the pool is unchanged.
What the consumer does check is that it calls `VIDIOC_DQBUF` only after a scan
under the lock found a SUBMITTED slot: a step from the loop head or from the
wait makes no reclaim and no signal, and goes on to the reclaim exactly when
some slot below `buffer_count` is SUBMITTED. With one slot, after submitting
index 0 and reclaiming index 0, the consumer's next step finds nothing
submitted and waits on `buffer_available`: no second reclaim is made. -/
theorem consumer_reclaim_unchecked (pool : buffer_pool_t) (hlay : pool.laid_out)
    (hc : pool.buffer_count ≤ MAX_BUFFERS) (idx : Int) (j : Nat) (hj : j < MAX_BUFFERS) :
    (∃ r, consumer_step { pc := .poll, idx := idx } pool { poll_ok := true, dqbuf := some j } =
        some r ∧ reclaim_frees r j ∧ r.pool.buffer_used = pool.buffer_used.set j 0 ∧
        (slot_free pool j → r.pool = pool)) ∧
    (∀ pc, pc ≠ consumer_pc.poll → ∀ inp,
      ∃ r, consumer_step { pc := pc, idx := idx } pool inp = some r ∧ r.pool = pool ∧
        (∀ d, Event.ioctl_dqbuf d ∉ r.events) ∧
        Event.cond_signal_buffer_free ∉ r.events ∧
        (r.next.pc = .poll ↔
          ∃ i : Nat, (i : Int) < pool.buffer_count ∧ slot_submitted pool i) ∧
        (r.next.pc ≠ .poll → r.next.pc = .wait_buffer_available)) ∧
    (∃ s evs,
      run [.producer { frame := true, qbuf_ok := true },
           .consumer { poll_ok := true, dqbuf := none },
           .consumer { poll_ok := true, dqbuf := some 0 }]
        (start_state (all_free 1)) = some (s, evs) ∧
      s.pool = all_free 1 ∧
      consumer_step s.consumer s.pool { poll_ok := true, dqbuf := some 0 } =
        some { next := { pc := .wait_buffer_available, idx := -1 }, pool := all_free 1
               events := [.mutex_lock, .cond_wait_buffer_available] }) := by
  have hjlen : j < pool.buffer_used.length := by
    rw [hlay.2.2]
    exact hj
  refine ⟨?_, ?_, ⟨_, _, rfl, rfl, rfl⟩⟩
  · refine ⟨{ next := { pc := .loop_head, idx := idx }
              pool := { pool with buffer_used := pool.buffer_used.set j 0 }
              events := [.poll true, .mutex_lock, .ioctl_dqbuf (some j),
                         .cond_signal_buffer_free, .mutex_unlock] }, ?_, ?_, rfl, ?_⟩
    · simp [consumer_step, consumer_reclaim, hjlen]
    · simp [reclaim_frees, slot_free, hjlen]
    · intro hfree
      unfold slot_free at hfree
      have hset : pool.buffer_used.set j 0 = pool.buffer_used := by
        apply List.ext_getElem?
        intro k
        by_cases hk : j = k
        · subst hk
          rw [List.getElem?_set_self hjlen]
          exact hfree.symm
        · rw [List.getElem?_set_ne hk]
      simp only [hset]
  · intro pc hpc inp
    rcases consumer_check_cases pool hlay hc with ⟨hnone, hr⟩ | ⟨i, hi, hsub, _, hr⟩
    · have hno : ¬ ∃ i : Nat, (i : Int) < pool.buffer_count ∧ slot_submitted pool i := by
        rintro ⟨i, hi, hs⟩
        exact hnone i hi hs
      obtain ⟨e, he, hstep⟩ := consumer_step_shape pc idx pool inp _ hpc hr
      refine ⟨_, hstep, rfl, ?_, ?_, ?_, ?_⟩
      · rcases he with he | he <;> simp [he]
      · rcases he with he | he <;> simp [he]
      · simp [hno]
      · simp
    · have hyes : ∃ i : Nat, (i : Int) < pool.buffer_count ∧ slot_submitted pool i :=
        ⟨i, hi, hsub⟩
      obtain ⟨e, he, hstep⟩ := consumer_step_shape pc idx pool inp _ hpc hr
      refine ⟨_, hstep, rfl, ?_, ?_, ?_, ?_⟩
      · rcases he with he | he <;> simp [he]
      · rcases he with he | he <;> simp [he]
      · simp [hyes]
      · simp

/-- C7 amended, at a concrete pool: 32 slots, all free, the device reporting
index 5, which was never submitted. -/
theorem consumer_reclaim_unchecked_witness :
    (∃ r, consumer_step { pc := .poll, idx := 0 } (all_free 32)
        { poll_ok := true, dqbuf := some 5 } = some r ∧
        reclaim_frees r 5 ∧ r.pool.buffer_used = (all_free 32).buffer_used.set 5 0 ∧
        (slot_free (all_free 32) 5 → r.pool = all_free 32)) ∧
    (∀ pc, pc ≠ consumer_pc.poll → ∀ inp,
      ∃ r, consumer_step { pc := pc, idx := 0 } (all_free 32) inp = some r ∧
        r.pool = all_free 32 ∧
        (∀ d, Event.ioctl_dqbuf d ∉ r.events) ∧
        Event.cond_signal_buffer_free ∉ r.events ∧
        (r.next.pc = .poll ↔
          ∃ i : Nat, (i : Int) < (all_free 32).buffer_count ∧ slot_submitted (all_free 32) i) ∧
        (r.next.pc ≠ .poll → r.next.pc = .wait_buffer_available)) ∧
    (∃ s evs,
      run [.producer { frame := true, qbuf_ok := true },
           .consumer { poll_ok := true, dqbuf := none },
           .consumer { poll_ok := true, dqbuf := some 0 }]
        (start_state (all_free 1)) = some (s, evs) ∧
      s.pool = all_free 1 ∧
      consumer_step s.consumer s.pool { poll_ok := true, dqbuf := some 0 } =
        some { next := { pc := .wait_buffer_available, idx := -1 }, pool := all_free 1
               events := [.mutex_lock, .cond_wait_buffer_available] }) :=
  consumer_reclaim_unchecked (all_free 32) (by decide) (by decide) 0 5 (by decide)

/-- C9. For every laid-out pool in which every slot below `buffer_count` is
SUBMITTED, `find_available_buffer` returns -1, and the producer step, whether
it comes from the frame loop with a frame at hand or from an earlier wait, ends
in `pthread_cond_wait` on `buffer_free` with the pool untouched and without any
write or submit. From the wait, in any laid-out pool, a step that does not end
in the wait again happens only when some slot below `buffer_count` is FREE. -/
theorem producer_waits_when_all_submitted (pool : buffer_pool_t) (hlay : pool.laid_out)
    (hc : pool.buffer_count ≤ MAX_BUFFERS)
    (hall : ∀ i : Nat, (i : Int) < pool.buffer_count → slot_submitted pool i)
    (frame qbuf_ok : Bool) :
    find_available_buffer pool = some (-1, pool) ∧
    producer_step .receive_frame pool { frame := true, qbuf_ok := qbuf_ok } =
      some { next := .wait_buffer_free, pool := pool
             events := [.mutex_lock, .cond_wait_buffer_free] } ∧
    producer_step .wait_buffer_free pool { frame := frame, qbuf_ok := qbuf_ok } =
      some { next := .wait_buffer_free, pool := pool
             events := [.cond_wake_buffer_free, .cond_wait_buffer_free] } ∧
    (∀ (pool1 : buffer_pool_t) (inp : producer_input) (r : step_result producer_pc),
      pool1.laid_out → pool1.buffer_count ≤ MAX_BUFFERS →
      producer_step .wait_buffer_free pool1 inp = some r → r.next ≠ .wait_buffer_free →
      ∃ i : Nat, (i : Int) < pool1.buffer_count ∧ slot_free pool1 i) := by
  have hnofree : ∀ j : Nat, (j : Int) < pool.buffer_count → ¬ slot_free pool j :=
    fun j hj hf => slot_free_not_submitted pool j hf (hall j hj)
  have hfind : find_available_buffer pool = some (-1, pool) := by
    rcases find_available_buffer_cases pool (by rw [hlay.2.2]; exact hc) with
      ⟨hr, _⟩ | ⟨j, _, hj, hfree, _⟩
    · exact hr
    · exact absurd hfree (hnofree j hj)
  have hclaim : producer_claim pool qbuf_ok =
      some { next := .wait_buffer_free, pool := pool, events := [.cond_wait_buffer_free] } := by
    simp [producer_claim, hfind]
  refine ⟨hfind, ?_, ?_, ?_⟩
  · simp [producer_step, hclaim]
  · simp [producer_step, hclaim]
  · intro pool1 inp r hl1 hc1 hstep hne
    rcases producer_claim_cases pool1 hl1 hc1 inp.qbuf_ok with ⟨_, hr⟩ | ⟨j, hj, hfree, _, _⟩
    · simp only [producer_step, hr, Option.map_some', Option.some.injEq] at hstep
      rw [← hstep] at hne
      exact absurd rfl hne
    · exact ⟨j, hj, hfree⟩

/-- C9, at a concrete pool: two slots, both submitted. -/
theorem producer_waits_when_all_submitted_witness :
    find_available_buffer
        { all_free 2 with buffer_used := ((all_free 2).buffer_used.set 0 1).set 1 1 } =
      some (-1, { all_free 2 with buffer_used := ((all_free 2).buffer_used.set 0 1).set 1 1 }) ∧
    producer_step .receive_frame
        { all_free 2 with buffer_used := ((all_free 2).buffer_used.set 0 1).set 1 1 }
        { frame := true, qbuf_ok := true } =
      some { next := .wait_buffer_free
             pool := { all_free 2 with buffer_used := ((all_free 2).buffer_used.set 0 1).set 1 1 }
             events := [.mutex_lock, .cond_wait_buffer_free] } ∧
    producer_step .wait_buffer_free
        { all_free 2 with buffer_used := ((all_free 2).buffer_used.set 0 1).set 1 1 }
        { frame := true, qbuf_ok := true } =
      some { next := .wait_buffer_free
             pool := { all_free 2 with buffer_used := ((all_free 2).buffer_used.set 0 1).set 1 1 }
             events := [.cond_wake_buffer_free, .cond_wait_buffer_free] } ∧
    (∀ (pool1 : buffer_pool_t) (inp : producer_input) (r : step_result producer_pc),
      pool1.laid_out → pool1.buffer_count ≤ MAX_BUFFERS →
      producer_step .wait_buffer_free pool1 inp = some r → r.next ≠ .wait_buffer_free →
      ∃ i : Nat, (i : Int) < pool1.buffer_count ∧ slot_free pool1 i) :=
  producer_waits_when_all_submitted
    { all_free 2 with buffer_used := ((all_free 2).buffer_used.set 0 1).set 1 1 }
    (by decide) (by decide)
    (by
      intro i hi
      have h2 : i < 2 := by
        have : (i : Int) < 2 := hi
        omega
      interval_cases i <;> decide)
    true true

/-! ## Submitting and reclaiming in any order -/

theorem with_used_laid_out (base : buffer_pool_t) (u : List Int) (hb : base.laid_out)
    (hu : u.length = base.buffer_used.length) : (with_used base u).laid_out :=
  ⟨hb.1, hb.2.1, hu.trans hb.2.2⟩

theorem marked_submit (u0 u : List Int) (m : Nat) (h : marked u0 u (List.range m))
    (hm : m < u0.length) : marked u0 (u.set m 1) (List.range (m + 1)) := by
  obtain ⟨hlen, hat⟩ := h
  refine ⟨by simpa using hlen, ?_⟩
  intro k hk
  by_cases hkm : m = k
  · subst hkm
    rw [List.getElem?_set_self (by rw [hlen]; exact hm)]
    simp
  · rw [List.getElem?_set_ne hkm, hat k hk]
    have : (k ∈ List.range (m + 1)) ↔ (k ∈ List.range m) := by
      simp only [List.mem_range]
      omega
    simp only [this]

theorem marked_free (u0 u : List Int) (j : Nat) (rest : List Nat)
    (h : marked u0 u (j :: rest)) (hj : j ∉ rest) (hlt : j < u0.length)
    (h0 : u0[j]? = some 0) : marked u0 (u.set j 0) rest := by
  obtain ⟨hlen, hat⟩ := h
  refine ⟨by simpa using hlen, ?_⟩
  intro k hk
  by_cases hkj : j = k
  · subst hkj
    rw [List.getElem?_set_self (by rw [hlen]; exact hlt)]
    simp [hj, h0]
  · rw [List.getElem?_set_ne hkj, hat k hk]
    have : (k ∈ j :: rest) ↔ (k ∈ rest) := by
      simp only [List.mem_cons]
      constructor
      · rintro (h1 | h1)
        · exact absurd h1.symm hkj
        · exact h1
      · exact Or.inr
    simp only [this]

theorem marked_perm (u0 u : List Int) (S T : List Nat) (h : marked u0 u S)
    (hp : T.Perm S) : marked u0 u T := by
  refine ⟨h.1, ?_⟩
  intro k hk
  rw [h.2 k hk]
  simp only [hp.mem_iff]

theorem marked_nil (u0 u : List Int) (h : marked u0 u []) : u = u0 := by
  apply List.ext_getElem?
  intro k
  by_cases hk : k < u0.length
  · rw [h.2 k hk]
    simp
  · rw [List.getElem?_eq_none (by rw [h.1]; omega), List.getElem?_eq_none (by omega)]

theorem marked_self (u0 : List Int) : marked u0 u0 (List.range 0) := by
  refine ⟨rfl, ?_⟩
  intro k _
  simp

theorem marked_submitted (base : buffer_pool_t) (u0 u : List Int) (S : List Nat) (j : Nat)
    (h : marked u0 u S) (hj : j ∈ S) (hlt : j < u0.length) :
    slot_submitted (with_used base u) j := by
  refine ⟨1, ?_, by decide⟩
  simp only [with_used]
  rw [h.2 j hlt]
  simp [hj]

theorem marked_free_slot (base : buffer_pool_t) (u0 u : List Int) (S : List Nat) (j : Nat)
    (h : marked u0 u S) (hj : j ∉ S) (hlt : j < u0.length) (h0 : u0[j]? = some 0) :
    slot_free (with_used base u) j := by
  simp only [slot_free, with_used]
  rw [h.2 j hlt]
  simp [hj, h0]

/-- With slots `0..m-1` submitted, slot `m` free and `m` below the slot count,
a successful producer step submits slot `m`. -/
theorem producer_step_submits_next (base : buffer_pool_t) (u0 u : List Int) (n m : Nat)
    (hb : base.laid_out) (hu0 : u0.length = MAX_BUFFERS) (hcount : base.buffer_count = n)
    (hn : n ≤ MAX_BUFFERS) (hm : m < n) (h0 : u0[m]? = some 0)
    (h : marked u0 u (List.range m)) :
    producer_step .receive_frame (with_used base u) { frame := true, qbuf_ok := true } =
      some { next := .receive_frame, pool := with_used base (u.set m 1)
             events := [.mutex_lock, .sws_scale m, .ioctl_qbuf m true,
                        .cond_signal_buffer_available, .mutex_unlock, .usleep] } := by
  have hm32 : m < u0.length := by
    rw [hu0]
    exact lt_of_lt_of_le hm hn
  have hfree_m : slot_free (with_used base u) m :=
    marked_free_slot base u0 u _ m h (by simp) hm32 h0
  have hc : (with_used base u).buffer_count = n := hcount
  have hlay : (with_used base u).laid_out :=
    with_used_laid_out base u hb (by rw [h.1, hu0, hb.2.2])
  rcases producer_claim_cases (with_used base u) hlay
    (by rw [hc]; exact_mod_cast hn) true with ⟨hnone, _⟩ | ⟨j, hj, hfree, hlow, hr⟩
  · exact absurd hfree_m (hnone m (by rw [hc]; exact_mod_cast hm))
  · have hjn : j < n := by
      rw [hc] at hj
      exact_mod_cast hj
    have hj32 : j < u0.length := by
      rw [hu0]
      exact lt_of_lt_of_le hjn hn
    have hjm : j = m := by
      rcases Nat.lt_trichotomy j m with hlt | heq | hgt
      · exfalso
        have hsub := marked_submitted base u0 u _ j h (List.mem_range.mpr hlt) hj32
        exact slot_free_not_submitted _ j hfree hsub
      · exact heq
      · exact absurd hfree_m (hlow m hgt)
    subst hjm
    simp only [if_true] at hr
    simp only [producer_step, hr, if_true, Option.map_some']
    rfl

/-- The submitting phase: `K` successful producer steps from a pool with slots
`0..m-1` submitted and the slots from `m` on, below the slot count, free. -/
theorem run_submit_schedule (base : buffer_pool_t) (u0 : List Int) (n : Nat)
    (hb : base.laid_out) (hu0 : u0.length = MAX_BUFFERS) (hcount : base.buffer_count = n)
    (hn : n ≤ MAX_BUFFERS) (h0 : ∀ j, j < n → u0[j]? = some 0) (cs : consumer_state) :
    ∀ (K m : Nat) (u : List Int), m + K ≤ n → marked u0 u (List.range m) →
      ∃ u1 evs,
        run (submit_schedule K)
            { pool := with_used base u, producer := .receive_frame, consumer := cs } =
          some ({ pool := with_used base u1, producer := .receive_frame, consumer := cs },
            evs) ∧
        marked u0 u1 (List.range (m + K)) ∧ submitted_indices evs = List.range' m K := by
  intro K
  induction K with
  | zero =>
    intro m u _ h
    exact ⟨u, [], rfl, h, rfl⟩
  | succ K ih =>
    intro m u hmK h
    have hstep := producer_step_submits_next base u0 u n m hb hu0 hcount hn (by omega)
      (h0 m (by omega)) h
    obtain ⟨u1, evs, hrun, hmark, hsub⟩ :=
      ih (m + 1) (u.set m 1) (by omega) (marked_submit u0 u m h (by rw [hu0]; omega))
    refine ⟨u1, [.mutex_lock, .sws_scale m, .ioctl_qbuf m true, .cond_signal_buffer_available,
      .mutex_unlock, .usleep] ++ evs, ?_, ?_, ?_⟩
    · simp only [submit_schedule, List.replicate_succ, run, system_step, hstep, Option.map_some']
      simp only [submit_schedule] at hrun
      rw [hrun]
      rfl
    · rw [show m + (K + 1) = m + 1 + K by omega]
      exact hmark
    · simp [submitted_indices, List.range'_succ] at hsub ⊢
      exact hsub

/-- One consumer iteration, scan then reclaim of a submitted index `j`. -/
theorem consumer_iteration_frees (base : buffer_pool_t) (u0 u : List Int) (n : Nat)
    (hb : base.laid_out) (hu0 : u0.length = MAX_BUFFERS) (hcount : base.buffer_count = n)
    (hn : n ≤ MAX_BUFFERS) (j : Nat) (rest : List Nat) (idx : Int)
    (h : marked u0 u (j :: rest)) (hj : j < n) :
    ∃ i : Int,
      consumer_step { pc := .loop_head, idx := idx } (with_used base u)
          { poll_ok := true, dqbuf := some j } =
        some { next := { pc := .poll, idx := i }, pool := with_used base u
               events := [.mutex_lock, .mutex_unlock] } ∧
      consumer_step { pc := .poll, idx := i } (with_used base u)
          { poll_ok := true, dqbuf := some j } =
        some { next := { pc := .loop_head, idx := i }, pool := with_used base (u.set j 0)
               events := [.poll true, .mutex_lock, .ioctl_dqbuf (some j),
                          .cond_signal_buffer_free, .mutex_unlock] } := by
  have hj32 : j < u0.length := by
    rw [hu0]
    exact lt_of_lt_of_le hj hn
  have hsub : slot_submitted (with_used base u) j :=
    marked_submitted base u0 u _ j h (by simp) hj32
  have hc : (with_used base u).buffer_count = n := hcount
  have hlay : (with_used base u).laid_out :=
    with_used_laid_out base u hb (by rw [h.1, hu0, hb.2.2])
  rcases consumer_check_cases (with_used base u) hlay (by rw [hc]; exact_mod_cast hn) with
    ⟨hnone, _⟩ | ⟨i, _, _, _, hr⟩
  · exact absurd hsub (hnone j (by rw [hc]; exact_mod_cast hj))
  · refine ⟨i, by simp [consumer_step, hr], ?_⟩
    have hlen : j < (with_used base u).buffer_used.length := by
      simp only [with_used]
      rw [h.1]
      exact hj32
    simp only [consumer_step, consumer_reclaim, hlen, if_true]
    rfl

/-- The reclaiming phase: consumer iterations for the indices of `l`, all of
them submitted, in any order. -/
theorem run_reclaim_schedule (base : buffer_pool_t) (u0 : List Int) (n : Nat)
    (hb : base.laid_out) (hu0 : u0.length = MAX_BUFFERS) (hcount : base.buffer_count = n)
    (hn : n ≤ MAX_BUFFERS) (h0 : ∀ j, j < n → u0[j]? = some 0) (pc : producer_pc) :
    ∀ (l rest : List Nat) (u : List Int) (idx : Int),
      marked u0 u (l ++ rest) → (l ++ rest).Nodup → (∀ j ∈ l, j < n) →
      ∃ u1 idx1 evs,
        run (reclaim_schedule l)
            { pool := with_used base u, producer := pc,
              consumer := { pc := .loop_head, idx := idx } } =
          some ({ pool := with_used base u1, producer := pc,
                  consumer := { pc := .loop_head, idx := idx1 } }, evs) ∧
        marked u0 u1 rest ∧ reclaimed_indices evs = l := by
  intro l
  induction l with
  | nil =>
    intro rest u idx h _ _
    exact ⟨u, idx, [], rfl, h, rfl⟩
  | cons j l ih =>
    intro rest u idx h hnd hlt
    have hj : j < n := hlt j (by simp)
    have hnotin : j ∉ l ++ rest := (List.nodup_cons.mp hnd).1
    obtain ⟨i, hcheck, hreclaim⟩ :=
      consumer_iteration_frees base u0 u n hb hu0 hcount hn j (l ++ rest) idx h hj
    obtain ⟨u1, idx1, evs, hrun, hmark, hrec⟩ :=
      ih rest (u.set j 0) i
        (marked_free u0 u j (l ++ rest) h hnotin (by rw [hu0]; omega) (h0 j hj))
        (List.nodup_cons.mp hnd).2 (fun k hk => hlt k (by simp [hk]))
    refine ⟨u1, idx1, [.mutex_lock, .mutex_unlock] ++ ([.poll true, .mutex_lock,
      .ioctl_dqbuf (some j), .cond_signal_buffer_free, .mutex_unlock] ++ evs), ?_, hmark, ?_⟩
    · simp only [reclaim_schedule, run, system_step, hcheck, hreclaim, Option.map_some']
      rw [hrun]
      rfl
    · simp [reclaimed_indices] at hrec ⊢
      exact hrec

/-- C8. For every slot count `N` within the array, every `K <= N` and every
laid-out pool of `N` slots that are all FREE, with both threads at their entry:
`K` successful producer steps run to their end and submit the `K` pairwise
distinct indices `0..K-1`, each SUBMITTED afterwards. For every order `perm` of
these indices, the `K` consumer iterations that report them in that order run
to their end; each index is SUBMITTED, and not yet reclaimed, when its turn
comes; the indices reclaimed are exactly `perm`; and the pool is again the
all-FREE pool the run started from. -/
theorem submit_then_reclaim_round_trip (pool : buffer_pool_t) (N K : Nat)
    (hlay : pool.laid_out) (hcount : pool.buffer_count = N) (hN : N ≤ MAX_BUFFERS)
    (hfree : ∀ i, i < N → slot_free pool i) (hK : K ≤ N) :
    ∃ s1 evs1, run (submit_schedule K) (start_state pool) = some (s1, evs1) ∧
      submitted_indices evs1 = List.range K ∧
      (submitted_indices evs1).Nodup ∧ (submitted_indices evs1).length = K ∧
      (∀ j ∈ submitted_indices evs1, slot_submitted s1.pool j) ∧
      ∀ perm : List Nat, perm.Perm (submitted_indices evs1) →
        (∀ l1 j l2, perm = l1 ++ j :: l2 →
          ∃ s2 evs2, run (reclaim_schedule l1) s1 = some (s2, evs2) ∧
            slot_submitted s2.pool j ∧ j ∉ reclaimed_indices evs2) ∧
        ∃ s3 evs3, run (reclaim_schedule perm) s1 = some (s3, evs3) ∧
          reclaimed_indices evs3 = perm ∧ s3.pool = pool := by
  have hu0 : pool.buffer_used.length = MAX_BUFFERS := hlay.2.2
  have h0 : ∀ j, j < N → pool.buffer_used[j]? = some 0 := hfree
  obtain ⟨u1, evs1, hrun1, hmark1, hsub1⟩ :=
    run_submit_schedule pool pool.buffer_used N hlay hu0 hcount hN h0
      { pc := .loop_head, idx := -1 } K 0 pool.buffer_used (by omega)
      (marked_self pool.buffer_used)
  rw [Nat.zero_add] at hmark1
  have hsub : submitted_indices evs1 = List.range K := by
    rw [hsub1, List.range_eq_range']
  have hlt32 : ∀ j ∈ List.range K, j < pool.buffer_used.length := by
    intro j hj
    have := List.mem_range.mp hj
    omega
  refine ⟨_, evs1, hrun1, hsub, ?_, ?_, ?_, ?_⟩
  · rw [hsub]
    exact List.nodup_range K
  · rw [hsub]
    exact List.length_range K
  · intro j hj
    rw [hsub] at hj
    exact marked_submitted pool _ u1 _ j hmark1 hj (hlt32 j hj)
  · intro perm hperm
    rw [hsub] at hperm
    have hmarkp : marked pool.buffer_used u1 perm := marked_perm _ u1 _ perm hmark1 hperm
    have hnd : perm.Nodup := hperm.nodup_iff.mpr (List.nodup_range K)
    have hltN : ∀ j ∈ perm, j < N := by
      intro j hj
      have := List.mem_range.mp (hperm.mem_iff.mp hj)
      omega
    constructor
    · intro l1 j l2 hsplit
      subst hsplit
      obtain ⟨u2, idx2, evs2, hrun2, hmark2, hrec2⟩ :=
        run_reclaim_schedule pool pool.buffer_used N hlay hu0 hcount hN h0 .receive_frame
          l1 (j :: l2) u1 (-1) hmarkp hnd (fun k hk => hltN k (by simp [hk]))
      refine ⟨_, evs2, hrun2, ?_, ?_⟩
      · have hjN : j < N := hltN j (by simp)
        exact marked_submitted pool _ u2 _ j hmark2 (by simp) (by omega)
      · rw [hrec2]
        intro hmem
        have hdis := (List.nodup_append.mp hnd).2.2
        exact hdis hmem (by simp)
    · obtain ⟨u3, idx3, evs3, hrun3, hmark3, hrec3⟩ :=
        run_reclaim_schedule pool pool.buffer_used N hlay hu0 hcount hN h0 .receive_frame
          perm [] u1 (-1) (by simpa using hmarkp) (by simpa using hnd) hltN
      refine ⟨_, evs3, hrun3, hrec3, ?_⟩
      simp only
      rw [marked_nil _ u3 hmark3]
      rfl

/-- C8, at a concrete size: 4 slots, 3 submissions. -/
theorem submit_then_reclaim_round_trip_witness :
    ∃ s1 evs1, run (submit_schedule 3) (start_state (all_free 4)) = some (s1, evs1) ∧
      submitted_indices evs1 = List.range 3 ∧
      (submitted_indices evs1).Nodup ∧ (submitted_indices evs1).length = 3 ∧
      (∀ j ∈ submitted_indices evs1, slot_submitted s1.pool j) ∧
      ∀ perm : List Nat, perm.Perm (submitted_indices evs1) →
        (∀ l1 j l2, perm = l1 ++ j :: l2 →
          ∃ s2 evs2, run (reclaim_schedule l1) s1 = some (s2, evs2) ∧
            slot_submitted s2.pool j ∧ j ∉ reclaimed_indices evs2) ∧
        ∃ s3 evs3, run (reclaim_schedule perm) s1 = some (s3, evs3) ∧
          reclaimed_indices evs3 = perm ∧ s3.pool = all_free 4 :=
  submit_then_reclaim_round_trip (all_free 4) 4 3 (by decide) rfl (by decide)
    (by
      intro i hi
      interval_cases i <;> decide)
    (by decide)

/-! ## Initialisation -/

/-- C10. For every granted count smaller than `MAX_BUFFERS`, `init_buffers`
ends in `exit(EXIT_FAILURE)` right after `VIDIOC_REQBUFS`: the pool is as it
was (`buffer_count` not set) and nothing was mapped. A run of `main` on such a
device ends in failure with the global pool untouched and without any `mmap` or
`pthread_create`; when it gets as far as `init_buffers`, its calls are exactly
`open`, `VIDIOC_S_FMT`, `VIDIOC_REQBUFS` and `exit`. -/
theorem init_buffers_rejects_smaller_grant (env : main_env) (granted : Nat)
    (hreq : env.init.reqbufs = some granted) (hlt : granted < MAX_BUFFERS)
    (fd : Int) (pool : buffer_pool_t) :
    init_buffers fd pool env.init =
      { status := .exit_failure, pool := pool
        events := [.ioctl_reqbufs MAX_BUFFERS (some granted), .exit_failure] } ∧
    (main env).status = .exit_failure ∧
    (main env).pool = buffer_pool ∧
    (∀ e ∈ (main env).events,
      (∀ i ok, e ≠ Event.mmap i ok) ∧ (∀ ok, e ≠ Event.pthread_create_producer ok) ∧
        (∀ ok, e ≠ Event.pthread_create_consumer ok)) ∧
    (env.argc = 3 → 0 ≤ env.open_fd → env.s_fmt_ok = true →
      (main env).events =
        [.open_device true, .ioctl_s_fmt true, .ioctl_reqbufs MAX_BUFFERS (some granted),
         .exit_failure]) := by
  have hinit : ∀ (fd : Int) (pool : buffer_pool_t), init_buffers fd pool env.init =
      { status := .exit_failure, pool := pool
        events := [.ioctl_reqbufs MAX_BUFFERS (some granted), .exit_failure] } := by
    intro fd pool
    simp [init_buffers, hreq, hlt]
  refine ⟨hinit fd pool, ?_⟩
  by_cases h1 : env.argc = 3
  · by_cases h2 : env.open_fd < 0
    · have hmain : main env =
          { status := .exit_failure, pool := buffer_pool,
            events := [.open_device false, .perror "open video device"] } := by
        simp [main, h1, h2]
      rw [hmain]
      refine ⟨rfl, rfl, by simp, ?_⟩
      intro _ h3
      omega
    · by_cases h3 : env.s_fmt_ok = true
      · have hmain : main env =
            { status := .exit_failure, pool := buffer_pool,
              events := [.open_device true, .ioctl_s_fmt true,
                         .ioctl_reqbufs MAX_BUFFERS (some granted), .exit_failure] } := by
          simp [main, h1, h2, h3, hinit]
        rw [hmain]
        exact ⟨rfl, rfl, by simp, fun _ _ _ => rfl⟩
      · have hmain : main env =
            { status := .exit_failure, pool := buffer_pool,
              events := [.open_device true, .ioctl_s_fmt false, .perror "VIDIOC_S_FMT"] } := by
          simp [main, h1, h2, h3]
        rw [hmain]
        refine ⟨rfl, rfl, by simp, ?_⟩
        intro _ _ h4
        exact absurd h4 h3
  · have hmain : main env = { status := .exit_failure, pool := buffer_pool, events := [] } := by
      simp [main, h1]
    rw [hmain]
    refine ⟨rfl, rfl, by simp, ?_⟩
    intro h2
    exact absurd h2 h1

/-- C10, at the scenario of the specification: 32 requested, 16 granted. -/
theorem init_buffers_rejects_smaller_grant_witness :
    init_buffers 3 buffer_pool (granting_env 16 []).init =
      { status := .exit_failure, pool := buffer_pool
        events := [.ioctl_reqbufs MAX_BUFFERS (some 16), .exit_failure] } ∧
    (main (granting_env 16 [])).status = .exit_failure ∧
    (main (granting_env 16 [])).pool = buffer_pool ∧
    (∀ e ∈ (main (granting_env 16 [])).events,
      (∀ i ok, e ≠ Event.mmap i ok) ∧ (∀ ok, e ≠ Event.pthread_create_producer ok) ∧
        (∀ ok, e ≠ Event.pthread_create_consumer ok)) ∧
    ((granting_env 16 []).argc = 3 → 0 ≤ (granting_env 16 []).open_fd →
      (granting_env 16 []).s_fmt_ok = true →
      (main (granting_env 16 [])).events =
        [.open_device true, .ioctl_s_fmt true, .ioctl_reqbufs MAX_BUFFERS (some 16),
         .exit_failure]) :=
  init_buffers_rejects_smaller_grant (granting_env 16 []) 16 rfl (by decide) 3 buffer_pool

/-! ## The two wait conditions -/

/-- C16. For every pool whose `buffer_count` stays within the `buffer_used`
array, both scans return a value and leave the pool as it was. With
`buffer_count >= 1` they do not both return -1, so the producer's wait
condition (`find_available_buffer(pool) < 0`) and the consumer's
(`find_used_buffer(pool) < 0`) are not both true in that state; with
`buffer_count <= 0` both return -1. -/
theorem scans_not_both_empty (pool : buffer_pool_t)
    (h : pool.buffer_count ≤ pool.buffer_used.length) :
    ∃ a u : Int, find_available_buffer pool = some (a, pool) ∧
      find_used_buffer pool = some (u, pool) ∧
      (1 ≤ pool.buffer_count → ¬ (a = -1 ∧ u = -1) ∧ ¬ (a < 0 ∧ u < 0)) ∧
      (pool.buffer_count ≤ 0 → a = -1 ∧ u = -1) := by
  rcases find_available_buffer_cases pool h with ⟨ha, hnofree⟩ | ⟨j, ha, hj, _, _⟩
  · rcases find_used_buffer_cases pool h with ⟨hu, hnosub⟩ | ⟨i, hu, hi, _, _⟩
    · refine ⟨-1, -1, ha, hu, ?_, fun _ => ⟨rfl, rfl⟩⟩
      intro h1
      exfalso
      have h0 : ((0 : Nat) : Int) < pool.buffer_count := by omega
      have hlen : 0 < pool.buffer_used.length := by omega
      exact hnosub 0 h0 ((slot_states_in_bounds pool 0 hlen).mp (hnofree 0 h0))
    · refine ⟨-1, i, ha, hu, ?_, ?_⟩
      · intro _
        constructor <;> (rintro ⟨_, h2⟩; omega)
      · intro h0
        omega
  · rcases find_used_buffer_cases pool h with ⟨hu, _⟩ | ⟨i, hu, _, _, _⟩
    · refine ⟨j, -1, ha, hu, ?_, ?_⟩
      · intro _
        constructor <;> (rintro ⟨h2, _⟩; omega)
      · intro h0
        omega
    · refine ⟨j, i, ha, hu, ?_, ?_⟩
      · intro _
        constructor <;> (rintro ⟨h2, _⟩; omega)
      · intro h0
        omega

/-- C16, at a concrete pool: one slot, submitted; the producer would wait, the
consumer would not. -/
theorem scans_not_both_empty_witness :
    ∃ a u : Int,
      find_available_buffer { buffer_pool with buffer_used := [1], buffer_count := 1 } =
        some (a, { buffer_pool with buffer_used := [1], buffer_count := 1 }) ∧
      find_used_buffer { buffer_pool with buffer_used := [1], buffer_count := 1 } =
        some (u, { buffer_pool with buffer_used := [1], buffer_count := 1 }) ∧
      ((1 : Int) ≤ 1 → ¬ (a = -1 ∧ u = -1) ∧ ¬ (a < 0 ∧ u < 0)) ∧
      ((1 : Int) ≤ 0 → a = -1 ∧ u = -1) :=
  scans_not_both_empty { buffer_pool with buffer_used := [1], buffer_count := 1 } (by decide)

/-! ## The lock in a producer iteration -/

/-- The loop of `init_buffers` after `m` iterations in which `VIDIOC_QUERYBUF`
and `mmap` succeed: the calls made so far are those of `mapped_events`, the
slots passed are FREE, and the loop goes on from index `i0 + m`. -/
theorem init_buffers_loop_prefix (dev : init_device) :
    ∀ (m n i0 : Nat) (pool : buffer_pool_t), pool.laid_out → i0 + m ≤ MAX_BUFFERS →
      (∀ k, i0 ≤ k → k < i0 + m → (dev.querybuf k).isSome ∧ (dev.mmap k).isSome) →
      ∃ pool1 : buffer_pool_t, pool1.laid_out ∧ pool1.buffer_count = pool.buffer_count ∧
        pool1.fd = pool.fd ∧
        (∀ k, i0 ≤ k → k < i0 + m → slot_free pool1 k) ∧
        (∀ k, k < i0 → pool1.buffer_used[k]? = pool.buffer_used[k]?) ∧
        init_buffers_loop dev (m + n) i0 pool =
          { status := (init_buffers_loop dev n (i0 + m) pool1).status
            pool := (init_buffers_loop dev n (i0 + m) pool1).pool
            events := mapped_events i0 m ++ (init_buffers_loop dev n (i0 + m) pool1).events } := by
  intro m
  induction m with
  | zero =>
    intro n i0 pool hlay _ _
    refine ⟨pool, hlay, rfl, rfl, ?_, fun _ _ => rfl, ?_⟩
    · intro k h1 h2
      omega
    · simp [mapped_events]
  | succ m ih =>
    intro n i0 pool hlay hle hok
    obtain ⟨h1, h2, h3⟩ := hlay
    have hi0 : i0 < MAX_BUFFERS := by omega
    obtain ⟨hq, hm⟩ := hok i0 (le_refl i0) (by omega)
    obtain ⟨buf, hbuf⟩ := Option.isSome_iff_exists.mp hq
    obtain ⟨addr, haddr⟩ := Option.isSome_iff_exists.mp hm
    have hlay3 : ({ pool with buffers := pool.buffers.set i0 buf,
                              buffer_start := pool.buffer_start.set i0 addr,
                              buffer_used := pool.buffer_used.set i0 0 } :
        buffer_pool_t).laid_out :=
      ⟨by simpa using h1, by simpa using h2, by simpa using h3⟩
    obtain ⟨pool1, hl1, hc1, hf1, hfree1, hkeep1, hloop1⟩ :=
      ih n (i0 + 1) _ hlay3 (by omega)
        (fun k hk1 hk2 => hok k (by omega) (by omega))
    refine ⟨pool1, hl1, hc1, hf1, ?_, ?_, ?_⟩
    · intro k hk1 hk2
      by_cases hk : k = i0
      · subst hk
        unfold slot_free
        rw [hkeep1 k (by omega)]
        simp only
        rw [List.getElem?_set_self (by rw [h3]; exact hi0)]
      · exact hfree1 k (by omega) (by omega)
    · intro k hk
      rw [hkeep1 k (by omega)]
      simp only
      rw [List.getElem?_set_ne (by omega)]
    · have e1 : m + 1 + n = (m + n) + 1 := by omega
      have e2 : i0 + (m + 1) = i0 + 1 + m := by omega
      rw [e1, e2]
      simp only [init_buffers_loop, hbuf, haddr, h1, h2, h3, hi0, if_true, List.length_set,
        hloop1, mapped_events, List.cons_append, List.nil_append]

theorem mapped_events_no_munmap (k : Nat) :
    ∀ (m i : Nat), Event.munmap k ∉ mapped_events i m := by
  intro m
  induction m with
  | zero => intro i; simp [mapped_events]
  | succ m ih =>
    intro i
    simp only [mapped_events, List.mem_cons, not_or]
    exact ⟨by simp, by simp, ih (i + 1)⟩

/-- One iteration of the loop of `init_buffers` in which `mmap` fails. -/
theorem init_buffers_loop_mmap_fails (dev : init_device) (n i : Nat) (pool : buffer_pool_t)
    (hlay : pool.laid_out) (hi : i < MAX_BUFFERS) (hq : (dev.querybuf i).isSome)
    (hfail : dev.mmap i = none) :
    (init_buffers_loop dev (n + 1) i pool).status = .exit_failure ∧
    (init_buffers_loop dev (n + 1) i pool).events =
      [.ioctl_querybuf i true, .mmap i false, .perror "mmap", .exit_failure] := by
  obtain ⟨h1, h2, _⟩ := hlay
  obtain ⟨buf, hbuf⟩ := Option.isSome_iff_exists.mp hq
  simp [init_buffers_loop, hbuf, hfail, h1, h2, hi]

/-- C11, as stated, fails. On a device whose `mmap` fails for buffer 2 after
buffers 0 and 1 were mapped, `init_buffers` ends in `exit(EXIT_FAILURE)` right
after `perror("mmap")`: its calls contain no `munmap`, neither of buffer 0 nor
of buffer 1. -/
theorem init_buffers_exits_without_unmapping :
    (init_buffers 3 buffer_pool (mmap_failing_device 2)).status = .exit_failure ∧
    (init_buffers 3 buffer_pool (mmap_failing_device 2)).events =
      [.ioctl_reqbufs 32 (some 32), .ioctl_querybuf 0 true, .mmap 0 true,
       .ioctl_querybuf 1 true, .mmap 1 true, .ioctl_querybuf 2 true, .mmap 2 false,
       .perror "mmap", .exit_failure] ∧
    Event.munmap 0 ∉ (init_buffers 3 buffer_pool (mmap_failing_device 2)).events ∧
    Event.munmap 1 ∉ (init_buffers 3 buffer_pool (mmap_failing_device 2)).events :=
  ⟨rfl, rfl, by decide, by decide⟩

/-- C11, amended. For every `i` below `MAX_BUFFERS`, if mapping slot `i` fails
during `init_buffers` after slots `0..i-1` were mapped successfully, the
function reports the failure with `perror("mmap")` and ends in
`exit(EXIT_FAILURE)`: its calls are `VIDIOC_REQBUFS`, the `VIDIOC_QUERYBUF` and
`mmap` of slots `0..i-1`, the `VIDIOC_QUERYBUF` and the failing `mmap` of slot
`i`, `perror` and `exit`. No `munmap` is called, by `init_buffers` or by the run
of `main` it belongs to; the earlier mappings are left to the exit of the
process. -/
theorem init_buffers_mmap_failure_exits (fd : Int) (pool : buffer_pool_t) (dev : init_device)
    (count i : Nat) (hlay : pool.laid_out) (hreq : dev.reqbufs = some count)
    (hcount : MAX_BUFFERS ≤ count) (hi : i < MAX_BUFFERS)
    (hq : ∀ k, k ≤ i → (dev.querybuf k).isSome) (hm : ∀ k, k < i → (dev.mmap k).isSome)
    (hfail : dev.mmap i = none) :
    (init_buffers fd pool dev).status = .exit_failure ∧
    (init_buffers fd pool dev).events =
      .ioctl_reqbufs MAX_BUFFERS (some count) ::
        (mapped_events 0 i ++
          [.ioctl_querybuf i true, .mmap i false, .perror "mmap", .exit_failure]) ∧
    (∀ k, Event.munmap k ∉ (init_buffers fd pool dev).events) ∧
    (∀ env : main_env, env.init = dev →
      (main env).status = .exit_failure ∧ ∀ k, Event.munmap k ∉ (main env).events) := by
  have hinit : ∀ (fd : Int) (pool : buffer_pool_t), pool.laid_out →
      (init_buffers fd pool dev).status = .exit_failure ∧
      (init_buffers fd pool dev).events =
        .ioctl_reqbufs MAX_BUFFERS (some count) ::
          (mapped_events 0 i ++
            [.ioctl_querybuf i true, .mmap i false, .perror "mmap", .exit_failure]) := by
    intro fd pool hlay
    obtain ⟨n, hn⟩ : ∃ n, count = i + (n + 1) := ⟨count - i - 1, by omega⟩
    have hlay0 : ({ pool with buffer_count := u32_to_int count, fd := fd } :
        buffer_pool_t).laid_out := hlay
    obtain ⟨pool1, hl1, _, _, _, _, hloop⟩ :=
      init_buffers_loop_prefix dev i (n + 1) 0 _ hlay0 (by omega)
        (fun k _ hk => ⟨hq k (by omega), hm k (by omega)⟩)
    rw [Nat.zero_add] at hloop
    obtain ⟨hst, hev⟩ := init_buffers_loop_mmap_fails dev n i pool1 hl1 hi (hq i (le_refl i)) hfail
    have hnot : ¬ count < MAX_BUFFERS := by omega
    rw [hst, hev, ← hn] at hloop
    simp only [init_buffers, hreq, hnot, if_false, hloop]
    simp
  have hno : ∀ (fd : Int) (pool : buffer_pool_t), pool.laid_out →
      ∀ k, Event.munmap k ∉ (init_buffers fd pool dev).events := by
    intro fd pool hlay k
    rw [(hinit fd pool hlay).2]
    simp only [List.mem_cons, List.mem_append, not_or]
    exact ⟨by simp, mapped_events_no_munmap k i 0, by simp, by simp, by simp, by simp,
      by simp⟩
  refine ⟨(hinit fd pool hlay).1, (hinit fd pool hlay).2, hno fd pool hlay, ?_⟩
  intro env henv
  subst henv
  have hbp : buffer_pool.laid_out := by decide
  obtain ⟨hst, _⟩ := hinit env.open_fd buffer_pool hbp
  have hnm := hno env.open_fd buffer_pool hbp
  by_cases h1 : env.argc = 3
  · by_cases h2 : env.open_fd < 0
    · simp [main, h1, h2]
    · by_cases h3 : env.s_fmt_ok = true
      · have hmain : main env =
            { status := .exit_failure, pool := (init_buffers env.open_fd buffer_pool env.init).pool,
              events := [Event.open_device true, Event.ioctl_s_fmt true] ++
                (init_buffers env.open_fd buffer_pool env.init).events } := by
          simp only [main, h1, h2, h3, hst]
          simp
        rw [hmain]
        refine ⟨rfl, ?_⟩
        intro k
        simp only [List.mem_append, List.mem_cons, not_or]
        exact ⟨⟨by simp, by simp, by simp⟩, hnm k⟩
      · simp [main, h1, h2, h3]
  · simp [main, h1]

/-- C11 amended, at a concrete device: `mmap` fails for buffer 2. -/
theorem init_buffers_mmap_failure_exits_witness :
    (init_buffers 3 buffer_pool (mmap_failing_device 2)).status = .exit_failure ∧
    (init_buffers 3 buffer_pool (mmap_failing_device 2)).events =
      .ioctl_reqbufs MAX_BUFFERS (some 32) ::
        (mapped_events 0 2 ++
          [.ioctl_querybuf 2 true, .mmap 2 false, .perror "mmap", .exit_failure]) ∧
    (∀ k, Event.munmap k ∉ (init_buffers 3 buffer_pool (mmap_failing_device 2)).events) ∧
    (∀ env : main_env, env.init = mmap_failing_device 2 →
      (main env).status = .exit_failure ∧ ∀ k, Event.munmap k ∉ (main env).events) :=
  init_buffers_mmap_failure_exits 3 buffer_pool (mmap_failing_device 2) 32 2 (by decide) rfl
    (by decide) (by decide) (fun _ _ => rfl)
    (fun k hk => by
      have : k ≠ 2 := by omega
      simp [mmap_failing_device, this])
    rfl

theorem mapped_events_no_exit : ∀ (m i : Nat), Event.exit_failure ∉ mapped_events i m := by
  intro m
  induction m with
  | zero => intro i; simp [mapped_events]
  | succ m ih =>
    intro i
    simp only [mapped_events, List.mem_cons, not_or]
    exact ⟨by simp, by simp, ih (i + 1)⟩

/-- With exactly `MAX_BUFFERS` buffers granted and every call succeeding,
`init_buffers` returns with `buffer_count = MAX_BUFFERS` and every slot FREE:
`find_available_buffer` returns 0 and `find_used_buffer` returns -1. -/
theorem init_buffers_exact_grant (fd : Int) (pool : buffer_pool_t) (dev : init_device)
    (hlay : pool.laid_out) (hreq : dev.reqbufs = some MAX_BUFFERS)
    (hq : ∀ k, k < MAX_BUFFERS → (dev.querybuf k).isSome)
    (hm : ∀ k, k < MAX_BUFFERS → (dev.mmap k).isSome)
    (h1 : dev.mutex_init_ok = true) (h2 : dev.cond_available_ok = true)
    (h3 : dev.cond_free_ok = true) :
    (init_buffers fd pool dev).status = .returned ∧
    (init_buffers fd pool dev).pool.laid_out ∧
    (init_buffers fd pool dev).pool.buffer_count = MAX_BUFFERS ∧
    (∀ k, k < MAX_BUFFERS → slot_free (init_buffers fd pool dev).pool k) ∧
    find_available_buffer (init_buffers fd pool dev).pool =
      some (0, (init_buffers fd pool dev).pool) ∧
    find_used_buffer (init_buffers fd pool dev).pool =
      some (-1, (init_buffers fd pool dev).pool) := by
  have hlay0 : ({ pool with buffer_count := u32_to_int MAX_BUFFERS, fd := fd } :
      buffer_pool_t).laid_out := hlay
  obtain ⟨pool1, hl1, hc1, _, hfree1, _, hloop⟩ :=
    init_buffers_loop_prefix dev MAX_BUFFERS 0 0 _ hlay0 (by omega)
      (fun k _ hk => ⟨hq k (by omega), hm k (by omega)⟩)
  have hres : init_buffers fd pool dev =
      { status := .returned, pool := pool1
        events := .ioctl_reqbufs MAX_BUFFERS (some MAX_BUFFERS) ::
          ((mapped_events 0 MAX_BUFFERS ++ []) ++
            [.mutex_init true, .cond_init_buffer_available true,
             .cond_init_buffer_free true]) } := by
    have htail : init_buffers_loop dev 0 (0 + MAX_BUFFERS) pool1 =
        { status := .returned, pool := pool1, events := [] } := rfl
    rw [htail, Nat.add_zero] at hloop
    simp only [init_buffers, hreq, lt_irrefl, if_false, hloop, init_sync, h1, h2, h3, if_true]
  have hcount : pool1.buffer_count = MAX_BUFFERS := by
    rw [hc1]
    show u32_to_int MAX_BUFFERS = MAX_BUFFERS
    decide
  have hfree : ∀ k, k < MAX_BUFFERS → slot_free pool1 k :=
    fun k hk => hfree1 k (Nat.zero_le k) (by omega)
  have hbound : pool1.buffer_count ≤ pool1.buffer_used.length := by
    rw [hcount, hl1.2.2]
  rw [hres]
  refine ⟨rfl, hl1, hcount, hfree, ?_, ?_⟩
  · rcases find_available_buffer_cases pool1 hbound with ⟨_, hnone⟩ | ⟨j, hr, _, _, hlow⟩
    · exact absurd (hfree 0 (by decide)) (hnone 0 (by rw [hcount]; decide))
    · have hj : j = 0 := by
        rcases Nat.eq_zero_or_pos j with h0 | hpos
        · exact h0
        · exact absurd (hfree 0 (by decide)) (hlow 0 hpos)
      subst hj
      exact hr
  · rcases find_used_buffer_cases pool1 hbound with ⟨hr, _⟩ | ⟨j, _, hj, hsub, _⟩
    · exact hr
    · have hj32 : j < MAX_BUFFERS := by
        rw [hcount] at hj
        exact_mod_cast hj
      exact absurd hsub (slot_free_not_submitted pool1 j (hfree j hj32))

/-- C15, where the code fails it. For every granted count above `MAX_BUFFERS`,
with `VIDIOC_QUERYBUF` and `mmap` succeeding, `init_buffers` does not reject
the grant: it sets `buffer_count` to the granted count, maps the 32 slots of
the arrays, queries buffer 32 and then stores its description in
`pool->buffers[32]`, outside the array. No failure is reported (`exit` is not
called), and `buffer_count` exceeds `MAX_BUFFERS`. -/
theorem init_buffers_overruns_on_larger_grant (fd : Int) (pool : buffer_pool_t)
    (dev : init_device) (granted : Nat) (hlay : pool.laid_out)
    (hreq : dev.reqbufs = some granted) (hgt : MAX_BUFFERS < granted)
    (hint : granted < 2 ^ 31)
    (hq : ∀ k, k ≤ MAX_BUFFERS → (dev.querybuf k).isSome)
    (hm : ∀ k, k < MAX_BUFFERS → (dev.mmap k).isSome) :
    (init_buffers fd pool dev).status = .out_of_bounds ∧
    (init_buffers fd pool dev).pool.buffer_count = granted ∧
    (MAX_BUFFERS : Int) < (init_buffers fd pool dev).pool.buffer_count ∧
    (init_buffers fd pool dev).events =
      .ioctl_reqbufs MAX_BUFFERS (some granted) ::
        (mapped_events 0 MAX_BUFFERS ++ [.ioctl_querybuf MAX_BUFFERS true]) ∧
    Event.exit_failure ∉ (init_buffers fd pool dev).events := by
  obtain ⟨n, hn⟩ : ∃ n, granted = MAX_BUFFERS + (n + 1) := ⟨granted - MAX_BUFFERS - 1, by omega⟩
  have hlay0 : ({ pool with buffer_count := u32_to_int granted, fd := fd } :
      buffer_pool_t).laid_out := hlay
  obtain ⟨pool1, hl1, hc1, _, _, _, hloop⟩ :=
    init_buffers_loop_prefix dev MAX_BUFFERS (n + 1) 0 _ hlay0 (by omega)
      (fun k _ hk => ⟨hq k (by omega), hm k (by omega)⟩)
  obtain ⟨buf, hbuf⟩ := Option.isSome_iff_exists.mp (hq MAX_BUFFERS (le_refl _))
  have htail : init_buffers_loop dev (n + 1) (0 + MAX_BUFFERS) pool1 =
      { status := .out_of_bounds, pool := pool1
        events := [.ioctl_querybuf MAX_BUFFERS true] } := by
    simp [init_buffers_loop, hbuf, hl1.1]
  rw [htail, ← hn] at hloop
  have hnot : ¬ granted < MAX_BUFFERS := by omega
  have hres : init_buffers fd pool dev =
      { status := .out_of_bounds, pool := pool1
        events := .ioctl_reqbufs MAX_BUFFERS (some granted) ::
          (mapped_events 0 MAX_BUFFERS ++ [.ioctl_querybuf MAX_BUFFERS true]) } := by
    simp only [init_buffers, hreq, hnot, if_false, hloop]
  have hcount : pool1.buffer_count = granted := by
    rw [hc1]
    simp only [u32_to_int]
    have h32 : granted % 2 ^ 32 = granted := Nat.mod_eq_of_lt (by omega)
    rw [h32, if_pos hint]
  rw [hres]
  refine ⟨rfl, hcount, ?_, rfl, ?_⟩
  · simp only
    rw [hcount]
    exact_mod_cast hgt
  · simp only [List.mem_cons, List.mem_append, not_or]
    exact ⟨by simp, mapped_events_no_exit MAX_BUFFERS 0, by simp, by simp⟩

/-- C15, at the failing input: a device that grants 33 buffers. -/
theorem init_buffers_overruns_on_larger_grant_witness :
    (init_buffers 3 buffer_pool (granting_device 33)).status = .out_of_bounds ∧
    (init_buffers 3 buffer_pool (granting_device 33)).pool.buffer_count = (33 : Nat) ∧
    (MAX_BUFFERS : Int) < (init_buffers 3 buffer_pool (granting_device 33)).pool.buffer_count ∧
    (init_buffers 3 buffer_pool (granting_device 33)).events =
      .ioctl_reqbufs MAX_BUFFERS (some 33) ::
        (mapped_events 0 MAX_BUFFERS ++ [.ioctl_querybuf MAX_BUFFERS true]) ∧
    Event.exit_failure ∉ (init_buffers 3 buffer_pool (granting_device 33)).events :=
  init_buffers_overruns_on_larger_grant 3 buffer_pool (granting_device 33) 33 (by decide) rfl
    (by decide) (by decide) (fun _ _ => rfl) (fun _ _ => rfl)

/-! ## The calls of each part of the program -/

theorem producer_claim_no_stream_switch (pool : buffer_pool_t) (qbuf_ok : Bool)
    (r : step_result producer_pc) (h : producer_claim pool qbuf_ok = some r) :
    ∀ e ∈ r.events, e.is_stream_switch = false := by
  unfold producer_claim at h
  split at h
  · simp at h
  · split at h
    · simp only [Option.some.injEq] at h
      subst h
      simp [Event.is_stream_switch]
    · split at h
      · simp at h
      · split at h <;>
          (simp only [Option.some.injEq] at h
           subst h
           simp [Event.is_stream_switch])

theorem producer_step_no_stream_switch (pc : producer_pc) (pool : buffer_pool_t)
    (inp : producer_input) (r : step_result producer_pc)
    (h : producer_step pc pool inp = some r) :
    ∀ e ∈ r.events, e.is_stream_switch = false := by
  cases pc with
  | returned =>
    simp only [producer_step, Option.some.injEq] at h
    subst h
    simp
  | receive_frame =>
    by_cases hf : inp.frame = true
    · simp only [producer_step, hf, if_true] at h
      cases hc : producer_claim pool inp.qbuf_ok with
      | none => simp [hc] at h
      | some r0 =>
        simp only [hc, Option.map_some', Option.some.injEq] at h
        subst h
        intro e he
        rcases List.mem_cons.mp he with he | he
        · rw [he]; rfl
        · exact producer_claim_no_stream_switch pool _ r0 hc e he
    · simp only [producer_step, hf, Bool.false_eq_true, if_false, Option.some.injEq] at h
      subst h
      simp
  | wait_buffer_free =>
    simp only [producer_step] at h
    cases hc : producer_claim pool inp.qbuf_ok with
    | none => simp [hc] at h
    | some r0 =>
      simp only [hc, Option.map_some', Option.some.injEq] at h
      subst h
      intro e he
      rcases List.mem_cons.mp he with he | he
      · rw [he]; rfl
      · exact producer_claim_no_stream_switch pool _ r0 hc e he

theorem consumer_check_no_stream_switch (pool : buffer_pool_t)
    (r : step_result consumer_state) (h : consumer_check pool = some r) :
    ∀ e ∈ r.events, e.is_stream_switch = false := by
  unfold consumer_check at h
  split at h
  · simp at h
  · split at h <;>
      (simp only [Option.some.injEq] at h
       subst h
       simp [Event.is_stream_switch])

theorem consumer_reclaim_no_stream_switch (cs : consumer_state) (pool : buffer_pool_t)
    (inp : consumer_input) (r : step_result consumer_state)
    (h : consumer_reclaim cs pool inp = some r) :
    ∀ e ∈ r.events, e.is_stream_switch = false := by
  unfold consumer_reclaim at h
  split at h
  · split at h
    · split at h
      · simp only [Option.some.injEq] at h
        subst h
        simp [Event.is_stream_switch]
      · simp at h
    · simp only [Option.some.injEq] at h
      subst h
      simp [Event.is_stream_switch]
  · simp only [Option.some.injEq] at h
    subst h
    simp [Event.is_stream_switch]

theorem consumer_step_no_stream_switch (cs : consumer_state) (pool : buffer_pool_t)
    (inp : consumer_input) (r : step_result consumer_state)
    (h : consumer_step cs pool inp = some r) :
    ∀ e ∈ r.events, e.is_stream_switch = false := by
  unfold consumer_step at h
  split at h
  · cases hc : consumer_check pool with
    | none => simp [hc] at h
    | some r0 =>
      simp only [hc, Option.map_some', Option.some.injEq] at h
      subst h
      intro e he
      rcases List.mem_cons.mp he with he | he
      · rw [he]; rfl
      · exact consumer_check_no_stream_switch pool r0 hc e he
  · cases hc : consumer_check pool with
    | none => simp [hc] at h
    | some r0 =>
      simp only [hc, Option.map_some', Option.some.injEq] at h
      subst h
      intro e he
      rcases List.mem_cons.mp he with he | he
      · rw [he]; rfl
      · exact consumer_check_no_stream_switch pool r0 hc e he
  · exact consumer_reclaim_no_stream_switch cs pool inp r h

/-- The threads never switch the stream: a run of producer and consumer steps
contains neither `VIDIOC_STREAMON` nor `VIDIOC_STREAMOFF`. -/
theorem run_no_stream_switch :
    ∀ (sched : List thread_step) (s s1 : system_state) (evs : List Event),
      run sched s = some (s1, evs) → ∀ e ∈ evs, e.is_stream_switch = false := by
  intro sched
  induction sched with
  | nil =>
    intro s s1 evs h
    simp only [run, Option.some.injEq, Prod.mk.injEq] at h
    rw [← h.2]
    simp
  | cons t ts ih =>
    intro s s1 evs h
    unfold run at h
    cases hstep : system_step s t with
    | none => simp [hstep] at h
    | some p =>
      obtain ⟨s2, evs2⟩ := p
      simp only [hstep] at h
      cases hrest : run ts s2 with
      | none => simp [hrest] at h
      | some q =>
        obtain ⟨s3, evs3⟩ := q
        simp only [hrest, Option.map_some', Option.some.injEq, Prod.mk.injEq] at h
        have h2 : ∀ e ∈ evs2, e.is_stream_switch = false := by
          cases t with
          | producer inp =>
            cases hp : producer_step s.producer s.pool inp with
            | none => simp [system_step, hp] at hstep
            | some r =>
              simp only [system_step, hp, Option.map_some', Option.some.injEq,
                Prod.mk.injEq] at hstep
              rw [← hstep.2]
              exact producer_step_no_stream_switch _ _ _ r hp
          | consumer inp =>
            cases hcs : consumer_step s.consumer s.pool inp with
            | none => simp [system_step, hcs] at hstep
            | some r =>
              simp only [system_step, hcs, Option.map_some', Option.some.injEq,
                Prod.mk.injEq] at hstep
              rw [← hstep.2]
              exact consumer_step_no_stream_switch _ _ _ r hcs
        rw [← h.2]
        intro e he
        rcases List.mem_append.mp he with he | he
        · exact h2 e he
        · exact ih s2 s3 evs3 hrest e he

theorem init_buffers_loop_no_stream_switch (dev : init_device) :
    ∀ (n i : Nat) (pool : buffer_pool_t),
      ∀ e ∈ (init_buffers_loop dev n i pool).events, e.is_stream_switch = false := by
  intro n
  induction n with
  | zero =>
    intro i pool
    simp [init_buffers_loop]
  | succ n ih =>
    intro i pool
    cases hq : dev.querybuf i with
    | none => simp [init_buffers_loop, hq, Event.is_stream_switch]
    | some buf =>
      by_cases h1 : i < pool.buffers.length
      · by_cases h2 : i < pool.buffer_start.length
        · cases hm : dev.mmap i with
          | none => simp [init_buffers_loop, hq, h1, h2, hm, Event.is_stream_switch]
          | some addr =>
            by_cases h3 : i < pool.buffer_used.length
            · simp only [init_buffers_loop, hq, h1, h2, hm, h3, if_true, List.length_set]
              intro e he
              simp only [List.cons_append, List.nil_append, List.mem_cons] at he
              rcases he with he | he | he
              · rw [he]; rfl
              · rw [he]; rfl
              · exact ih _ _ e he
            · simp [init_buffers_loop, hq, h1, h2, hm, h3, Event.is_stream_switch]
        · simp [init_buffers_loop, hq, h1, h2, Event.is_stream_switch]
      · simp [init_buffers_loop, hq, h1, Event.is_stream_switch]

theorem init_sync_no_stream_switch (dev : init_device) (pool : buffer_pool_t) :
    ∀ e ∈ (init_sync dev pool).events, e.is_stream_switch = false := by
  unfold init_sync
  split
  · split
    · split <;> simp [Event.is_stream_switch]
    · simp [Event.is_stream_switch]
  · simp [Event.is_stream_switch]

/-- Initialisation never switches the stream. -/
theorem init_buffers_no_stream_switch (fd : Int) (pool : buffer_pool_t) (dev : init_device) :
    ∀ e ∈ (init_buffers fd pool dev).events, e.is_stream_switch = false := by
  cases hreq : dev.reqbufs with
  | none => simp [init_buffers, hreq, Event.is_stream_switch]
  | some count =>
    by_cases hlt : count < MAX_BUFFERS
    · simp [init_buffers, hreq, hlt, Event.is_stream_switch]
    · have hloop := init_buffers_loop_no_stream_switch dev count 0
        { pool with buffer_count := u32_to_int count, fd := fd }
      cases hst : (init_buffers_loop dev count 0
          { pool with buffer_count := u32_to_int count, fd := fd }).status with
      | returned =>
        simp only [init_buffers, hreq, hlt, if_false, hst]
        intro e he
        rcases List.mem_cons.mp he with he | he
        · rw [he]; rfl
        · rcases List.mem_append.mp he with he | he
          · exact hloop e he
          · exact init_sync_no_stream_switch dev _ e he
      | exit_failure =>
        simp only [init_buffers, hreq, hlt, if_false, hst]
        intro e he
        rcases List.mem_cons.mp he with he | he
        · rw [he]; rfl
        · exact hloop e he
      | out_of_bounds =>
        simp only [init_buffers, hreq, hlt, if_false, hst]
        intro e he
        rcases List.mem_cons.mp he with he | he
        · rw [he]; rfl
        · exact hloop e he

/-- The loop of `cleanup_buffers` leaves `buffer_used` and `buffer_count` as they
were, and calls nothing but `munmap`. -/
theorem cleanup_buffers_loop_keeps :
    ∀ (n i : Nat) (pool : buffer_pool_t),
      (cleanup_buffers_loop n i pool).pool.buffer_used = pool.buffer_used ∧
      (cleanup_buffers_loop n i pool).pool.buffer_count = pool.buffer_count ∧
      ∀ e ∈ (cleanup_buffers_loop n i pool).events, ∃ k, e = Event.munmap k := by
  intro n
  induction n with
  | zero =>
    intro i pool
    simp [cleanup_buffers_loop]
  | succ n ih =>
    intro i pool
    cases hs : pool.buffer_start[i]? with
    | none => simp [cleanup_buffers_loop, hs]
    | some start =>
      cases hb : pool.buffers[i]? with
      | none => simp [cleanup_buffers_loop, hs, hb]
      | some buf =>
        by_cases hcond : start ≠ 0 ∧ buf.length > 0
        · obtain ⟨h1, h2, h3⟩ := ih (i + 1) { pool with buffer_start := pool.buffer_start.set i 0 }
          simp only [cleanup_buffers_loop, hs, hb]
          rw [if_pos hcond]
          refine ⟨h1, h2, ?_⟩
          intro e he
          rcases List.mem_cons.mp he with he | he
          · exact ⟨i, he⟩
          · exact h3 e he
        · simp only [cleanup_buffers_loop, hs, hb]
          rw [if_neg hcond]
          exact ih (i + 1) pool

/-- On a laid-out pool the loop of `cleanup_buffers` stays inside the arrays and
returns. -/
theorem cleanup_buffers_loop_returns :
    ∀ (n i : Nat) (pool : buffer_pool_t), pool.laid_out → i + n ≤ MAX_BUFFERS →
      (cleanup_buffers_loop n i pool).status = .returned := by
  intro n
  induction n with
  | zero =>
    intro i pool _ _
    rfl
  | succ n ih =>
    intro i pool hlay hle
    obtain ⟨h1, h2, h3⟩ := hlay
    have hs : pool.buffer_start[i]? = some pool.buffer_start[i] :=
      List.getElem?_eq_getElem (by omega)
    have hb : pool.buffers[i]? = some pool.buffers[i] :=
      List.getElem?_eq_getElem (by omega)
    by_cases hcond : pool.buffer_start[i] ≠ 0 ∧ pool.buffers[i].length > 0
    · simp only [cleanup_buffers_loop, hs, hb]
      rw [if_pos hcond]
      exact ih (i + 1) _ ⟨h1, by simpa using h2, h3⟩ (by omega)
    · simp only [cleanup_buffers_loop, hs, hb]
      rw [if_neg hcond]
      exact ih (i + 1) pool ⟨h1, h2, h3⟩ (by omega)

theorem filter_stream_switch_nil (l : List Event)
    (h : ∀ e ∈ l, e.is_stream_switch = false) : l.filter Event.is_stream_switch = [] := by
  rw [List.filter_eq_nil_iff]
  intro e he
  rw [h e he]
  decide

theorem cleanup_buffers_no_stream_switch (pool : buffer_pool_t) :
    ∀ e ∈ (cleanup_buffers pool).events, e.is_stream_switch = false := by
  intro e he
  obtain ⟨k, hk⟩ := (cleanup_buffers_loop_keeps pool.buffer_count.toNat 0 pool).2.2 e he
  rw [hk]
  rfl

/-! ## Teardown in `main` -/

theorem mem_interleave (e : Event) :
    ∀ (p : List Bool) (xs ys : List Event), e ∈ interleave p xs ys → e ∈ xs ∨ e ∈ ys := by
  intro p
  induction p with
  | nil =>
    intro xs ys h
    exact List.mem_append.mp h
  | cons b p ih =>
    intro xs ys h
    cases b with
    | true =>
      cases xs with
      | nil => exact Or.inr h
      | cons x xs =>
        simp only [interleave, List.mem_cons] at h
        rcases h with h | h
        · exact Or.inl (List.mem_cons.mpr (Or.inl h))
        · rcases ih xs ys h with h | h
          · exact Or.inl (List.mem_cons.mpr (Or.inr h))
          · exact Or.inr h
    | false =>
      cases ys with
      | nil => exact Or.inl h
      | cons y ys =>
        simp only [interleave, List.mem_cons] at h
        rcases h with h | h
        · exact Or.inr (List.mem_cons.mpr (Or.inl h))
        · rcases ih xs ys h with h | h
          · exact Or.inl h
          · exact Or.inr (List.mem_cons.mpr (Or.inr h))

/-- The consumer switches the stream neither on nor off after the request for
its cancellation. -/
theorem consumer_after_cancel_no_stream_switch (late : List consumer_input)
    (cs : consumer_state) (pool : buffer_pool_t) (l : late_result)
    (h : consumer_after_cancel late cs pool = some l) :
    (∀ e ∈ l.early, e.is_stream_switch = false) ∧ (∀ e ∈ l.late, e.is_stream_switch = false) := by
  cases late with
  | nil =>
    simp only [consumer_after_cancel, Option.some.injEq] at h
    subst h
    simp
  | cons inp rest =>
    cases hpc : cs.pc with
    | wait_buffer_available =>
      simp only [consumer_after_cancel, hpc, Option.some.injEq] at h
      subst h
      simp
    | loop_head =>
      simp only [consumer_after_cancel, hpc] at h
      cases hstep : consumer_step cs pool inp with
      | none => simp [hstep] at h
      | some r =>
        simp only [hstep, Option.map_some', Option.some.injEq] at h
        subst h
        exact ⟨by simp, consumer_step_no_stream_switch cs pool inp r hstep⟩
    | poll =>
      simp only [consumer_after_cancel, hpc] at h
      cases hrec : consumer_reclaim cs pool inp with
      | none => simp [hrec] at h
      | some r =>
        have hr := consumer_reclaim_no_stream_switch cs pool inp r hrec
        simp only [hrec] at h
        cases rest with
        | nil =>
          simp only [Option.some.injEq] at h
          subst h
          exact ⟨fun e he => hr e (List.mem_of_mem_take he),
            fun e he => hr e (List.mem_of_mem_drop he)⟩
        | cons inp2 rest2 =>
          simp only at h
          cases hstep : consumer_step r.next r.pool inp2 with
          | none => simp [hstep] at h
          | some r2 =>
            simp only [hstep, Option.map_some', Option.some.injEq] at h
            subst h
            refine ⟨fun e he => hr e (List.mem_of_mem_take he), ?_⟩
            intro e he
            rcases List.mem_append.mp he with he | he
            · exact hr e (List.mem_of_mem_drop he)
            · exact consumer_step_no_stream_switch _ _ _ r2 hstep e he

/-- Lines 347-353 of `main` switch the stream neither on nor off. -/
theorem main_threads_stream_switches (env : main_env) (pool : buffer_pool_t)
    (before : List Event) :
    (main_threads env pool before).events.filter Event.is_stream_switch =
      before.filter Event.is_stream_switch := by
  unfold main_threads
  cases hrun : run env.schedule (start_state pool) with
  | none => rfl
  | some p =>
    obtain ⟨s, evs⟩ := p
    have hevs := filter_stream_switch_nil evs (run_no_stream_switch _ _ s evs hrun)
    have hcl := filter_stream_switch_nil _ (cleanup_buffers_no_stream_switch s.pool)
    cases hp : s.producer with
    | returned =>
      cases hst : (cleanup_buffers s.pool).status with
      | returned =>
        cases hl : consumer_after_cancel env.late s.consumer (cleanup_buffers s.pool).pool with
        | none => simp [hp, hst, hl, List.filter_append, hevs, hcl, Event.is_stream_switch]
        | some l =>
          obtain ⟨he, hla⟩ := consumer_after_cancel_no_stream_switch _ _ _ l hl
          have hearly := filter_stream_switch_nil _ he
          have hmerge : (interleave env.late_order
              ((cleanup_buffers s.pool).events ++ [Event.close_fd]) l.late).filter
                Event.is_stream_switch = [] := by
            apply filter_stream_switch_nil
            intro e hmem
            rcases mem_interleave e _ _ _ hmem with h1 | h1
            · rcases List.mem_append.mp h1 with h2 | h2
              · exact cleanup_buffers_no_stream_switch s.pool e h2
              · rw [List.mem_singleton.mp h2]
                rfl
            · exact hla e h1
          simp [hp, hst, hl, List.filter_append, hevs, hearly, hmerge, Event.is_stream_switch]
      | exit_failure =>
        simp [hp, hst, List.filter_append, hevs, hcl, Event.is_stream_switch]
      | out_of_bounds =>
        simp [hp, hst, List.filter_append, hevs, hcl, Event.is_stream_switch]
    | receive_frame => simp [hp, List.filter_append, hevs]
    | wait_buffer_free => simp [hp, List.filter_append, hevs]

/-- The loop of `cleanup_buffers` keeps the layout of the pool. -/
theorem cleanup_buffers_loop_layout :
    ∀ (n i : Nat) (pool : buffer_pool_t), pool.laid_out →
      (cleanup_buffers_loop n i pool).pool.laid_out := by
  intro n
  induction n with
  | zero =>
    intro i pool hlay
    exact hlay
  | succ n ih =>
    intro i pool hlay
    cases hs : pool.buffer_start[i]? with
    | none =>
      simp only [cleanup_buffers_loop, hs]
      exact hlay
    | some start =>
      cases hb : pool.buffers[i]? with
      | none =>
        simp only [cleanup_buffers_loop, hs, hb]
        exact hlay
      | some buf =>
        by_cases hcond : start ≠ 0 ∧ buf.length > 0
        · simp only [cleanup_buffers_loop, hs, hb]
          rw [if_pos hcond]
          exact ih (i + 1) _ ⟨hlay.1, by simpa using hlay.2.1, hlay.2.2⟩
        · simp only [cleanup_buffers_loop, hs, hb]
          rw [if_neg hcond]
          exact ih (i + 1) pool hlay

/-- A consumer step from a laid-out pool, with a reported index inside the
array, is defined; it keeps the layout and `buffer_count`, submits nothing, and
leaves every slot it is not told to reclaim as it was. -/
theorem consumer_step_defined (cs : consumer_state) (pool : buffer_pool_t)
    (inp : consumer_input) (hlay : pool.laid_out) (hc : pool.buffer_count ≤ MAX_BUFFERS)
    (hin : ∀ j, inp.dqbuf = some j → j < MAX_BUFFERS) :
    ∃ r, consumer_step cs pool inp = some r ∧ r.pool.laid_out ∧
      r.pool.buffer_count = pool.buffer_count ∧
      (∀ i, slot_submitted r.pool i → slot_submitted pool i) ∧
      (∀ i, inp.dqbuf ≠ some i → r.pool.buffer_used[i]? = pool.buffer_used[i]?) := by
  obtain ⟨pc, idx⟩ := cs
  by_cases hpc : pc = .poll
  · subst hpc
    by_cases hp : inp.poll_ok = true
    · cases hd : inp.dqbuf with
      | none =>
        have hstep : consumer_step { pc := .poll, idx := idx } pool inp =
            some { next := { pc := .loop_head, idx := idx }, pool := pool
                   events := [.poll true, .mutex_lock, .ioctl_dqbuf none,
                              .perror "ioctl VIDIOC_DQBUF", .mutex_unlock] } := by
          simp only [consumer_step, consumer_reclaim, hp, hd, if_true]
        exact ⟨_, hstep, hlay, rfl, fun _ h => h, fun _ _ => rfl⟩
      | some j =>
        have hj : j < pool.buffer_used.length := by
          rw [hlay.2.2]
          exact hin j hd
        have hstep : consumer_step { pc := .poll, idx := idx } pool inp =
            some { next := { pc := .loop_head, idx := idx }
                   pool := { pool with buffer_used := pool.buffer_used.set j 0 }
                   events := [.poll true, .mutex_lock, .ioctl_dqbuf (some j),
                              .cond_signal_buffer_free, .mutex_unlock] } := by
          simp only [consumer_step, consumer_reclaim, hp, hd, hj, if_true]
        refine ⟨_, hstep, ⟨hlay.1, hlay.2.1, by simpa using hlay.2.2⟩, rfl, ?_, ?_⟩
        · rintro i ⟨v, hv, hne⟩
          simp only at hv
          by_cases hij : j = i
          · subst hij
            rw [List.getElem?_set_self hj] at hv
            exact absurd (Option.some.inj hv).symm hne
          · rw [List.getElem?_set_ne hij] at hv
            exact ⟨v, hv, hne⟩
        · intro i hi
          have hij : j ≠ i := fun h => hi (by rw [h])
          simp only
          rw [List.getElem?_set_ne hij]
    · have hstep : consumer_step { pc := .poll, idx := idx } pool inp =
          some { next := { pc := .loop_head, idx := idx }, pool := pool
                 events := [.poll false, .perror "poll"] } := by
        simp only [consumer_step, consumer_reclaim, hp, Bool.false_eq_true, if_false]
      exact ⟨_, hstep, hlay, rfl, fun _ h => h, fun _ _ => rfl⟩
  · obtain ⟨r0, hr0, hp0⟩ := consumer_check_pool pool hlay hc
    obtain ⟨e, _, hstep⟩ := consumer_step_shape pc idx pool inp r0 hpc hr0
    refine ⟨_, hstep, ?_, ?_, ?_, ?_⟩
    · simp only [hp0]
      exact hlay
    · simp only [hp0]
    · intro i h
      simpa only [hp0] using h
    · intro i _
      simp only [hp0]

/-- What the consumer still runs after the request for its cancellation is
defined on a laid-out pool when the indices reported to it lie inside the
array; it submits nothing, and a slot that is not reported to it is left as it
was. -/
theorem consumer_after_cancel_defined (late : List consumer_input) (cs : consumer_state)
    (pool : buffer_pool_t) (hlay : pool.laid_out) (hc : pool.buffer_count ≤ MAX_BUFFERS)
    (hin : ∀ inp ∈ late, ∀ j, inp.dqbuf = some j → j < MAX_BUFFERS) :
    ∃ l, consumer_after_cancel late cs pool = some l ∧
      (∀ i, slot_submitted l.pool i → slot_submitted pool i) ∧
      (∀ i, (∀ inp ∈ late, inp.dqbuf ≠ some i) →
        l.pool.buffer_used[i]? = pool.buffer_used[i]?) := by
  cases late with
  | nil =>
    exact ⟨{ pool := pool, early := [], late := [] }, rfl, fun _ h => h, fun _ _ => rfl⟩
  | cons inp rest =>
    obtain ⟨r, hr, hl1, hc1, hsub1, hkeep1⟩ :=
      consumer_step_defined cs pool inp hlay hc (hin inp (by simp))
    cases hpc : cs.pc with
    | wait_buffer_available =>
      have h : consumer_after_cancel (inp :: rest) cs pool =
          some { pool := pool, early := [], late := [] } := by
        simp only [consumer_after_cancel, hpc]
      exact ⟨_, h, fun _ h => h, fun _ _ => rfl⟩
    | loop_head =>
      have h : consumer_after_cancel (inp :: rest) cs pool =
          some { pool := r.pool, early := [], late := r.events } := by
        simp only [consumer_after_cancel, hpc, hr, Option.map_some']
      refine ⟨_, h, hsub1, ?_⟩
      intro i hi
      exact hkeep1 i (hi inp (by simp))
    | poll =>
      have hrec : consumer_reclaim cs pool inp = some r := by
        simpa only [consumer_step, hpc] using hr
      cases rest with
      | nil =>
        have h : consumer_after_cancel [inp] cs pool =
            some { pool := r.pool, early := r.events.take 1, late := r.events.drop 1 } := by
          simp only [consumer_after_cancel, hpc, hrec]
        refine ⟨_, h, hsub1, ?_⟩
        intro i hi
        exact hkeep1 i (hi inp (by simp))
      | cons inp2 rest2 =>
        obtain ⟨r2, hr2, _, _, hsub2, hkeep2⟩ :=
          consumer_step_defined r.next r.pool inp2 hl1 (by rw [hc1]; exact hc)
            (hin inp2 (by simp))
        have h : consumer_after_cancel (inp :: inp2 :: rest2) cs pool =
            some { pool := r2.pool, early := r.events.take 1
                   late := r.events.drop 1 ++ r2.events } := by
          simp only [consumer_after_cancel, hpc, hrec, hr2, Option.map_some']
        refine ⟨_, h, fun i h => hsub1 i (hsub2 i h), ?_⟩
        intro i hi
        simp only
        rw [hkeep2 i (hi inp2 (by simp)), hkeep1 i (hi inp (by simp))]

/-- Once the producer has returned within the schedule, lines 347-353 of `main`
run straight through: join, request for cancellation, `cleanup_buffers`, close,
with what the consumer still runs falling between those calls. -/
theorem main_threads_returned (env : main_env) (pool : buffer_pool_t) (before : List Event)
    (s : system_state) (evs : List Event) (l : late_result) (hlay : pool.laid_out)
    (hc : pool.buffer_count ≤ MAX_BUFFERS)
    (hrun : run env.schedule (start_state pool) = some (s, evs))
    (hret : s.producer = .returned)
    (hl : consumer_after_cancel env.late s.consumer (cleanup_buffers s.pool).pool = some l) :
    main_threads env pool before =
      { status := .exit_success, pool := l.pool
        events := before ++ evs ++ l.early ++
          [.pthread_join_producer, .pthread_cancel_consumer] ++
          interleave env.late_order ((cleanup_buffers s.pool).events ++ [.close_fd]) l.late } := by
  obtain ⟨hl1, hcount⟩ := run_keeps_layout env.schedule _ s evs hlay hc hrun
  have hc1 : s.pool.buffer_count ≤ MAX_BUFFERS := by
    rw [hcount]
    exact hc
  have hst : (cleanup_buffers s.pool).status = .returned :=
    cleanup_buffers_loop_returns _ 0 s.pool hl1 (by omega)
  simp only [main_threads, hrun, hret, hst, hl]

/-- A run of `main` in which every call up to the creation of the two threads
succeeds goes on with lines 347-353. -/
theorem main_reaches_threads (env : main_env) (h1 : env.argc = 3) (h2 : 0 ≤ env.open_fd)
    (h3 : env.s_fmt_ok = true)
    (h4 : (init_buffers env.open_fd buffer_pool env.init).status = .returned)
    (h5 : env.streamon_ok = true) (h6 : env.create_producer_ok = true)
    (h7 : env.create_consumer_ok = true) :
    main env =
      main_threads env (init_buffers env.open_fd buffer_pool env.init).pool
        ([Event.open_device true, Event.ioctl_s_fmt true] ++
          (init_buffers env.open_fd buffer_pool env.init).events ++
          [.ioctl_streamon true, .pthread_create_producer true,
           .pthread_create_consumer true]) := by
  have h2n : ¬ env.open_fd < 0 := by omega
  simp [main, h1, h2n, h3, h4, h5, h6, h7]

/-- The only call of a run of `main` that switches the stream is the one
`VIDIOC_STREAMON` of line 330. -/
theorem main_stream_switches (env : main_env) :
    (main env).events.filter Event.is_stream_switch = [] ∨
    (main env).events.filter Event.is_stream_switch = [.ioctl_streamon false] ∨
    (main env).events.filter Event.is_stream_switch = [.ioctl_streamon true] := by
  have hinit := filter_stream_switch_nil _
    (init_buffers_no_stream_switch env.open_fd buffer_pool env.init)
  by_cases h1 : env.argc = 3
  · by_cases h2 : env.open_fd < 0
    · left
      simp [main, h1, h2, Event.is_stream_switch]
    · by_cases h3 : env.s_fmt_ok = true
      · cases h4 : (init_buffers env.open_fd buffer_pool env.init).status with
        | exit_failure =>
          left
          simp [main, h1, h2, h3, h4, List.filter_append, hinit, Event.is_stream_switch]
        | out_of_bounds =>
          left
          simp [main, h1, h2, h3, h4, List.filter_append, hinit, Event.is_stream_switch]
        | returned =>
          by_cases h5 : env.streamon_ok = true
          · by_cases h6 : env.create_producer_ok = true
            · by_cases h7 : env.create_consumer_ok = true
              · right; right
                rw [main_reaches_threads env h1 (by omega) h3 h4 h5 h6 h7,
                  main_threads_stream_switches]
                simp [List.filter_append, hinit, Event.is_stream_switch]
              · right; right
                simp [main, h1, h2, h3, h4, h5, h6, h7, List.filter_append, hinit,
                  Event.is_stream_switch]
            · right; right
              simp [main, h1, h2, h3, h4, h5, h6, List.filter_append, hinit,
                Event.is_stream_switch]
          · right; left
            simp [main, h1, h2, h3, h4, h5, List.filter_append, hinit,
              Event.is_stream_switch]
      · left
        simp [main, h1, h2, h3, Event.is_stream_switch]
  · left
    simp [main, h1]

/-- C12, where the code fails it. No run of `main` ever calls
`VIDIOC_STREAMOFF`: the only call that switches the stream is the single
`VIDIOC_STREAMON` of line 330. In the run in which one frame is submitted and
reclaimed before the frame source is exhausted, `main` ends in `EXIT_SUCCESS`
having switched the stream on once, unmapped the regions and closed the device,
without switching the stream off in between. -/
theorem main_never_stops_stream :
    (∀ (env : main_env) (ok : Bool), Event.ioctl_streamoff ok ∉ (main env).events) ∧
    (∀ env : main_env,
      (main env).events.filter Event.is_stream_switch = [] ∨
      (main env).events.filter Event.is_stream_switch = [.ioctl_streamon false] ∨
      (main env).events.filter Event.is_stream_switch = [.ioctl_streamon true]) ∧
    ((main one_frame_env).status = .exit_success ∧
      (main one_frame_env).events.filter Event.is_stream_switch = [.ioctl_streamon true] ∧
      submitted_indices (main one_frame_env).events = [0] ∧
      reclaimed_indices (main one_frame_env).events = [0] ∧
      Event.munmap 0 ∈ (main one_frame_env).events ∧
      Event.close_fd ∈ (main one_frame_env).events ∧
      Event.ioctl_streamoff true ∉ (main one_frame_env).events ∧
      Event.ioctl_streamoff false ∉ (main one_frame_env).events) := by
  refine ⟨?_, main_stream_switches, by decide⟩
  intro env ok hmem
  have hf : Event.ioctl_streamoff ok ∈ (main env).events.filter Event.is_stream_switch :=
    List.mem_filter.mpr ⟨hmem, rfl⟩
  rcases main_stream_switches env with h | h | h <;> rw [h] at hf <;> simp at hf

/-- C13, as stated, fails. In the run in which the producer submits three frames
and then finds the source exhausted, `main` ends in `EXIT_SUCCESS`: it joins
the producer, cancels the consumer and unmaps the regions although no slot was
ever reclaimed, and slots 0, 1 and 2 are still SUBMITTED when
`cleanup_buffers` has run. -/
theorem main_unmaps_submitted_slots :
    (main three_submitted_env).status = .exit_success ∧
    submitted_indices (main three_submitted_env).events = [0, 1, 2] ∧
    reclaimed_indices (main three_submitted_env).events = [] ∧
    Event.pthread_cancel_consumer ∈ (main three_submitted_env).events ∧
    Event.munmap 0 ∈ (main three_submitted_env).events ∧
    Event.munmap 1 ∈ (main three_submitted_env).events ∧
    Event.munmap 2 ∈ (main three_submitted_env).events ∧
    slot_submitted (main three_submitted_env).pool 0 ∧
    slot_submitted (main three_submitted_env).pool 1 ∧
    slot_submitted (main three_submitted_env).pool 2 := by
  decide

/-- C13, amended. In every run of `main` that starts both threads, whatever the
states of the slots when the producer has returned, `main` goes straight from
`pthread_join` to the request for cancellation of the consumer and, without
joining it, to `cleanup_buffers` and `close`, and ends in `EXIT_SUCCESS`: it
does not wait for slots that are still SUBMITTED. The teardown itself drains
nothing: no slot becomes SUBMITTED, and a slot that is not reported to the
consumer in what it still runs after the request is, once the regions have been
unmapped, in the state it had when the producer was joined. -/
theorem main_tears_down_without_drain (env : main_env) (s : system_state)
    (evs : List Event) (h1 : env.argc = 3) (h2 : 0 ≤ env.open_fd) (h3 : env.s_fmt_ok = true)
    (h4 : (init_buffers env.open_fd buffer_pool env.init).status = .returned)
    (hlay : (init_buffers env.open_fd buffer_pool env.init).pool.laid_out)
    (hc : (init_buffers env.open_fd buffer_pool env.init).pool.buffer_count ≤ MAX_BUFFERS)
    (h5 : env.streamon_ok = true) (h6 : env.create_producer_ok = true)
    (h7 : env.create_consumer_ok = true)
    (hrun : run env.schedule
      (start_state (init_buffers env.open_fd buffer_pool env.init).pool) = some (s, evs))
    (hret : s.producer = .returned)
    (hlate : ∀ inp ∈ env.late, ∀ j, inp.dqbuf = some j → j < MAX_BUFFERS) :
    ∃ l, consumer_after_cancel env.late s.consumer (cleanup_buffers s.pool).pool = some l ∧
      (main env).status = .exit_success ∧
      (main env).events =
        [Event.open_device true, Event.ioctl_s_fmt true] ++
          (init_buffers env.open_fd buffer_pool env.init).events ++
          [.ioctl_streamon true, .pthread_create_producer true,
           .pthread_create_consumer true] ++
          evs ++ l.early ++ [.pthread_join_producer, .pthread_cancel_consumer] ++
          interleave env.late_order ((cleanup_buffers s.pool).events ++ [.close_fd]) l.late ∧
      (∀ e ∈ (cleanup_buffers s.pool).events, ∃ k, e = Event.munmap k) ∧
      (∀ i, slot_submitted (main env).pool i → slot_submitted s.pool i) ∧
      (∀ i, (∀ inp ∈ env.late, inp.dqbuf ≠ some i) →
        (slot_submitted (main env).pool i ↔ slot_submitted s.pool i)) := by
  obtain ⟨hused, hcnt, hmun⟩ := cleanup_buffers_loop_keeps s.pool.buffer_count.toNat 0 s.pool
  obtain ⟨hl1, hcount⟩ := run_keeps_layout env.schedule _ s evs hlay hc hrun
  have hlayc : (cleanup_buffers s.pool).pool.laid_out :=
    cleanup_buffers_loop_layout _ 0 s.pool hl1
  have hcc : (cleanup_buffers s.pool).pool.buffer_count ≤ MAX_BUFFERS := by
    have : (cleanup_buffers s.pool).pool.buffer_count = s.pool.buffer_count := hcnt
    rw [this, hcount]
    exact hc
  have hu : (cleanup_buffers s.pool).pool.buffer_used = s.pool.buffer_used := hused
  obtain ⟨l, hl, hsub, hkeep⟩ :=
    consumer_after_cancel_defined env.late s.consumer _ hlayc hcc hlate
  have hsame : ∀ i, slot_submitted (cleanup_buffers s.pool).pool i ↔ slot_submitted s.pool i := by
    intro i
    simp only [slot_submitted, hu]
  refine ⟨l, hl, ?_⟩
  rw [main_reaches_threads env h1 h2 h3 h4 h5 h6 h7,
    main_threads_returned env _ _ s evs l hlay hc hrun hret hl]
  refine ⟨rfl, rfl, hmun, ?_, ?_⟩
  · intro i h
    exact (hsame i).mp (hsub i h)
  · intro i hi
    have hk : l.pool.buffer_used[i]? = s.pool.buffer_used[i]? := by
      rw [hkeep i hi, hu]
    simp only [slot_submitted, hk]

/-- C13 amended, at the scenario of the specification: three slots still
SUBMITTED when the producer returns, the consumer making no further call. -/
theorem main_tears_down_without_drain_witness :
    ∃ l, consumer_after_cancel three_submitted_env.late three_submitted_state.consumer
        (cleanup_buffers three_submitted_state.pool).pool = some l ∧
      (main three_submitted_env).status = .exit_success ∧
      (main three_submitted_env).events =
        [Event.open_device true, Event.ioctl_s_fmt true] ++
          (init_buffers three_submitted_env.open_fd buffer_pool
            three_submitted_env.init).events ++
          [.ioctl_streamon true, .pthread_create_producer true,
           .pthread_create_consumer true] ++
          three_submitted_events ++ l.early ++
          [.pthread_join_producer, .pthread_cancel_consumer] ++
          interleave three_submitted_env.late_order
            ((cleanup_buffers three_submitted_state.pool).events ++ [.close_fd]) l.late ∧
      (∀ e ∈ (cleanup_buffers three_submitted_state.pool).events, ∃ k, e = Event.munmap k) ∧
      (∀ i, slot_submitted (main three_submitted_env).pool i →
        slot_submitted three_submitted_state.pool i) ∧
      (∀ i, (∀ inp ∈ three_submitted_env.late, inp.dqbuf ≠ some i) →
        (slot_submitted (main three_submitted_env).pool i ↔
          slot_submitted three_submitted_state.pool i)) :=
  main_tears_down_without_drain three_submitted_env three_submitted_state
    three_submitted_events rfl (by decide) rfl (by decide) (by decide) (by decide) rfl rfl rfl
    (by decide) rfl (fun _ h => absurd h (List.not_mem_nil _))

/-- The request of line 348 does not stop the consumer at once. In the run of
`late_reclaim_env` the consumer, back from `poll` when the producer is joined,
takes the lock, reclaims index 0 and frees slot 0 after `pthread_cancel` and
between two `munmap` calls of `cleanup_buffers`; slots 1 and 2 are still
SUBMITTED when `main` ends in `EXIT_SUCCESS`. -/
theorem consumer_reclaims_after_cancel :
    (main late_reclaim_env).status = .exit_success ∧
    ((main late_reclaim_env).events.drop 93).take 10 =
      [.poll true, .pthread_join_producer, .pthread_cancel_consumer, .munmap 0, .munmap 1,
       .mutex_lock, .ioctl_dqbuf (some 0), .cond_signal_buffer_free, .mutex_unlock,
       .munmap 2] ∧
    reclaimed_indices (main late_reclaim_env).events = [0] ∧
    slot_free (main late_reclaim_env).pool 0 ∧
    slot_submitted (main late_reclaim_env).pool 1 ∧
    slot_submitted (main late_reclaim_env).pool 2 := by
  decide

end V4l2Loopback
